import Mathlib

/-!
Verification of the core routing table, data plane and controller plane of the
decentralized-sdn repository, by a shallow embedding in Lean 4.

The embedding follows the Rust sources under `src/packages`.  Components whose
source files are not part of the provided sources (the `Metric`, `Path` and
`Dest` modules of the router crate, the `bluesea_identity` node-id helpers, the
`TransportMsgHeader` wire codec, the connection crypto and the `TasksSwitcher`)
are modelled from the specification document; each such definition carries a
doc comment starting with "Modelled from the spec:".
-/

set_option maxRecDepth 100000
set_option linter.unusedVariables false

namespace Sdn

/-- Modelled from the spec: `bluesea_identity::NodeId` (source absent).
Node identifiers are unsigned 32-bit integers viewed as four layers of eight
bits each. -/
abbrev NodeId := Nat

/-- Modelled from the spec: `bluesea_identity::ConnId` (source absent), an
opaque connection identifier. -/
abbrev ConnId := Nat

/-- Modelled from the spec: `NodeId::layer(i)` extracts byte `i` of the id,
`layer(0)` being the lowest byte. -/
def NodeId.layer (id : NodeId) (i : Nat) : Nat := id / 256 ^ i % 256

/-- Modelled from the spec: `NodeId::eq_util_layer` (source absent).  Per the
glossary ("util layer: highest layer at which two NodeIds disagree") and
scenario S4 together with the repository tests `create_manual` and
`create_manual_other_layer`, it returns `k + 1` where `k` is the highest layer
whose bytes differ, and `0` when the two ids are equal. -/
def NodeId.eq_util_layer (a b : NodeId) : Nat :=
  if a.layer 3 ≠ b.layer 3 then 4
  else if a.layer 2 ≠ b.layer 2 then 3
  else if a.layer 1 ≠ b.layer 1 then 2
  else if a.layer 0 ≠ b.layer 0 then 1
  else 0

/-- Modelled from the spec: `Metric` (metric.rs absent):
latency, hop list for loop avoidance, bandwidth. -/
structure Metric where
  latency : Nat
  hops : List NodeId
  bandwidth : Nat
deriving DecidableEq, Repr

/-- Constructor in the style of `Metric::new(latency, hops, bandwidth)`. -/
def Metric.new (latency : Nat) (hops : List NodeId) (bandwidth : Nat) : Metric :=
  ⟨latency, hops, bandwidth⟩

/-- Modelled from the spec: recommended maximum hop count for `Metric::add`. -/
def MAX_HOP_COUNT : Nat := 8

/-- Modelled from the spec: `Metric::add(over)` concatenates the advertised
metric with the locally measured prefix: latencies add, bandwidths take the
minimum, and the hop list is `self.hops ++ over.hops[1..]`; it returns `none`
when the merged hop list contains a duplicate (loop detection) or exceeds
`MAX_HOP_COUNT`. -/
def Metric.add (m over : Metric) : Option Metric :=
  let hops := m.hops ++ over.hops.tail
  if hops.Nodup ∧ hops.length ≤ MAX_HOP_COUNT then
    some ⟨m.latency + over.latency, hops, min m.bandwidth over.bandwidth⟩
  else none

/-- Three-way comparison on naturals. -/
def cmpNat (a b : Nat) : Ordering := if a < b then .lt else if b < a then .gt else .eq

/-- Lexicographic three-way comparison on hop lists. -/
def cmpHops : List Nat → List Nat → Ordering
  | [], [] => .eq
  | [], _ :: _ => .lt
  | _ :: _, [] => .gt
  | x :: xs, y :: ys => (cmpNat x y).then (cmpHops xs ys)

/-- Modelled from the spec: metric ordering — latency ascending, bandwidth
descending, hop count ascending, then lexicographic hop list. -/
def Metric.cmp (a b : Metric) : Ordering :=
  (cmpNat a.latency b.latency).then
    ((cmpNat b.bandwidth a.bandwidth).then
      ((cmpNat a.hops.length b.hops.length).then (cmpHops a.hops b.hops)))

/-- Modelled from the spec: `Path(ConnId, NodeId, Metric)` (path.rs absent). -/
structure Path where
  conn : ConnId
  next_hop : NodeId
  metric : Metric
deriving DecidableEq, Repr

/-- Path comparison: by metric, ties broken by ConnId for determinism. -/
def Path.cmp (a b : Path) : Ordering := (Metric.cmp a.metric b.metric).then (cmpNat a.conn b.conn)

/-- Modelled from the spec: `Dest` (dest.rs absent) is an insertion-ordered
map from `ConnId` to a path; the cached best path of the source is computed on
demand here, which preserves all observable behaviour. -/
abbrev Dest := List Path

/-- Modelled from the spec: `Dest::set_path` inserts or replaces the path
stored under `conn`, keeping the insertion order of the map. -/
def Dest.set_path (d : Dest) (conn : ConnId) (node : NodeId) (m : Metric) : Dest :=
  match d with
  | [] => [⟨conn, node, m⟩]
  | p :: rest => if p.conn = conn then ⟨conn, node, m⟩ :: rest else p :: Dest.set_path rest conn node m

/-- Modelled from the spec: `Dest::del_path` removes the path stored under
`conn`. -/
def Dest.del_path (d : Dest) (conn : ConnId) : Dest :=
  d.filter (fun p => !(p.conn == conn))

/-- Mirror of `Dest::is_empty`. -/
def Dest.is_empty (d : Dest) : Bool := d.isEmpty

/-- Pick the minimal path of a candidate list under `Path.cmp`. -/
def pickBest : List Path → Option Path
  | [] => none
  | p :: rest => some (rest.foldl (fun best q => if Path.cmp q best = .lt then q else best) p)

/-- Modelled from the spec: `Dest::next(excepts)` returns conn and next hop of
the best path whose next hop is not excluded. -/
def Dest.next (d : Dest) (excepts : List NodeId) : Option (ConnId × NodeId) :=
  (pickBest (d.filter (fun p => !(excepts.contains p.next_hop)))).map fun p => (p.conn, p.next_hop)

/-- Modelled from the spec: `Dest::next_path(excepts)` returns the best
non-excluded path. -/
def Dest.next_path (d : Dest) (excepts : List NodeId) : Option Path :=
  pickBest (d.filter (fun p => !(excepts.contains p.next_hop)))

/-- Modelled from the spec: `Dest::best_for(dest_node)` returns the best path
whose metric hop list does not contain `dest_node` (poisoned reverse). -/
def Dest.best_for (d : Dest) (dest_node : NodeId) : Option Path :=
  pickBest (d.filter (fun p => !(p.metric.hops.contains dest_node)))

/-- The wire form `TableSync(Vec<(u8, Metric)>)` of table.rs. -/
abbrev TableSync := List (Nat × Metric)

/-- The routing table of table.rs: 256 `Dest` slots (represented as a total
function on slot indices, empty outside 0..=255) plus the populated-slot
vector. -/
@[ext]
structure Table where
  node_id : NodeId
  layer : Nat
  dests : Nat → Dest
  slots : List Nat

/-- Mirror of `Table::new`: empty dests, slots seeded with the self index. -/
def Table.new (node_id : NodeId) (layer : Nat) : Table :=
  { node_id := node_id, layer := layer, dests := fun _ => [], slots := [node_id.layer layer] }

/-- The self index `node_id.layer(layer)` of a table. -/
def Table.self_index (t : Table) : Nat := t.node_id.layer t.layer

/-- Mirror of `Table::add_direct`: adds a path for `src` on slot `src.layer(L)`, pushing
the index into `slots` (followed by a sort) when the slot was empty. -/
def Table.add_direct (t : Table) (src_conn : ConnId) (src : NodeId) (src_send_metric : Metric) : Table :=
  { t with
    dests := Function.update t.dests (src.layer t.layer)
      ((t.dests (src.layer t.layer)).set_path src_conn src src_send_metric),
    slots :=
      if (t.dests (src.layer t.layer)).is_empty then
        List.insertionSort (· ≤ ·) (t.slots ++ [src.layer t.layer])
      else t.slots }

/-- One iteration of the `Table::del_direct` loop for slot `i`: delete the
connection from the slot and, when the slot just became empty, remove the index
from `slots` (the binary search plus remove of the source equals `List.erase`
on the sorted `slots`). -/
def Table.del_direct_step (src_conn : ConnId) (t : Table) (i : Nat) : Table :=
  { t with
    dests := Function.update t.dests i ((t.dests i).del_path src_conn),
    slots :=
      if !(t.dests i).is_empty && ((t.dests i).del_path src_conn).is_empty then
        t.slots.erase i
      else t.slots }

/-- Mirror of `Table::del_direct`: removes `src_conn` from every slot. -/
def Table.del_direct (t : Table) (src_conn : ConnId) : Table :=
  (List.range 256).foldl (Table.del_direct_step src_conn) t

/-- Mirror of `Table::next`: look up slot `dest.layer(L)`. -/
def Table.next (t : Table) (dest : NodeId) (excepts : List NodeId) : Option (ConnId × NodeId) :=
  (t.dests (dest.layer t.layer)).next excepts

/-- Mirror of `Table::next_path`: look up slot `dest.layer(L)`. -/
def Table.next_path (t : Table) (dest : NodeId) (excepts : List NodeId) : Option Path :=
  (t.dests (dest.layer t.layer)).next_path excepts

/-- Replace-or-append on an association list keyed by slot index; the model of
`HashMap::insert` for the `cached` map of `Table::apply_sync`. -/
def setAssocMetric (l : List (Nat × Metric)) (k : Nat) (v : Metric) : List (Nat × Metric) :=
  match l with
  | [] => [(k, v)]
  | e :: rest => if e.1 = k then (k, v) :: rest else e :: setAssocMetric rest k v

/-- The `cached` map built by the first loop of `Table::apply_sync`: for each
sync entry in order, insert `metric.add(src_send_metric)` when it is `some`. -/
def sync_cached (sync : TableSync) (src_send_metric : Metric) : List (Nat × Metric) :=
  sync.foldl
    (fun acc e => match e.2.add src_send_metric with
      | some s => setAssocMetric acc e.1 s
      | none => acc) []

/-- Lookup in the `cached` association list (the source uses
`HashMap::remove`, whose removal aspect is irrelevant since each index is
visited once). -/
def lookupAssocMetric (l : List (Nat × Metric)) (k : Nat) : Option Metric :=
  (l.find? (fun e => e.1 == k)).map (fun e => e.2)

/-- One iteration of the second loop of `Table::apply_sync` for slot `i`:
the self slot is skipped; a cached entry is written through `set_path`
(pushing the index into `slots` when the slot was empty); otherwise, when the
slot is populated and `i` is not the layer index of `src`, the path learned
via `src_conn` is withdrawn (removing the index from `slots` when the slot
becomes empty). -/
def Table.apply_sync_step (src_conn : ConnId) (src : NodeId) (cached : List (Nat × Metric))
    (t : Table) (i : Nat) : Table :=
  if i = t.node_id.layer t.layer then t
  else
    match lookupAssocMetric cached i with
    | some m =>
      { t with
        dests := Function.update t.dests i ((t.dests i).set_path src_conn src m),
        slots :=
          if (t.dests i).is_empty then List.insertionSort (· ≤ ·) (t.slots ++ [i])
          else t.slots }
    | none =>
      if !(t.dests i).is_empty && src.layer t.layer != i then
        { t with
          dests := Function.update t.dests i ((t.dests i).del_path src_conn),
          slots :=
            if ((t.dests i).del_path src_conn).is_empty then t.slots.erase i
            else t.slots }
      else t

/-- Mirror of `Table::apply_sync(src_conn, src, src_send_metric, sync)`. -/
def Table.apply_sync (t : Table) (src_conn : ConnId) (src : NodeId) (src_send_metric : Metric)
    (sync : TableSync) : Table :=
  (List.range 256).foldl (Table.apply_sync_step src_conn src (sync_cached sync src_send_metric)) t

/-- Mirror of `Table::sync_for(node)`: `none` outside the advertising scope, otherwise
the `best_for(node)` metric of every populated non-self slot that has one. -/
def Table.sync_for (t : Table) (node : NodeId) : Option TableSync :=
  if t.node_id.eq_util_layer node > t.layer + 1 then none
  else some ((List.range 256).filterMap (fun i =>
    let d := t.dests i
    if !d.is_empty && i != t.node_id.layer t.layer then
      (d.best_for node).map (fun p => (i, p.metric))
    else none))

/-! Sanity checks replaying the repository tests of table.rs against the
model (`create_manual`, `create_manual_other_layer`, `apply_sync`). -/

/-- The table of the `create_manual` repository test. -/
def manualTable : Table :=
  (((Table.new 0 0).add_direct 1 1 (Metric.new 1 [1, 0] 1)).add_direct 2 2
      (Metric.new 2 [2, 4, 0] 1)).add_direct 3 3 (Metric.new 1 [3, 0] 1)

theorem sanity_create_manual_slots : manualTable.slots = [0, 1, 2, 3] := by decide

theorem sanity_create_manual_next : manualTable.next 1 [2] = some (1, 1) := by decide

theorem sanity_create_manual_sync_for_1 :
    manualTable.sync_for 1 = some [(2, Metric.new 2 [2, 4, 0] 1), (3, Metric.new 1 [3, 0] 1)] := by
  decide

theorem sanity_create_manual_sync_for_4 :
    manualTable.sync_for 4 = some [(1, Metric.new 1 [1, 0] 1), (3, Metric.new 1 [3, 0] 1)] := by
  decide

theorem sanity_other_layer : (Table.new 0 0).sync_for 0x10000000 = none := by decide

/-- The table of the `apply_sync` repository test after the first sync. -/
def applySyncTable : Table :=
  ((Table.new 0 0).add_direct 1 1 (Metric.new 1 [1, 0] 1)).apply_sync 1 1 (Metric.new 1 [1, 0] 2)
    [(2, Metric.new 1 [2, 1] 1), (3, Metric.new 1 [3, 1] 1)]

theorem sanity_apply_sync_slots : applySyncTable.slots = [0, 1, 2, 3] := by decide

theorem sanity_apply_sync_next2 :
    applySyncTable.next_path 2 [2] = some ⟨1, 1, Metric.new 2 [2, 1, 0] 1⟩ := by decide

/-- A literal table with the same observable content as `applySyncTable`
(kernel evaluation of two nested 256-slot folds is too deep, so the second
sync of the repository test is replayed from this literal copy). -/
def applySyncTableLit : Table where
  node_id := 0
  layer := 0
  dests := fun i =>
    if i = 1 then [⟨1, 1, Metric.new 1 [1, 0] 1⟩]
    else if i = 2 then [⟨1, 1, Metric.new 2 [2, 1, 0] 1⟩]
    else if i = 3 then [⟨1, 1, Metric.new 2 [3, 1, 0] 1⟩]
    else []
  slots := [0, 1, 2, 3]

theorem sanity_apply_sync_lit_dests :
    applySyncTable.dests 1 = applySyncTableLit.dests 1 ∧
    applySyncTable.dests 2 = applySyncTableLit.dests 2 ∧
    applySyncTable.dests 3 = applySyncTableLit.dests 3 ∧
    applySyncTable.dests 0 = applySyncTableLit.dests 0 ∧
    applySyncTable.slots = applySyncTableLit.slots := by decide

/-- The test table after the second sync, which omits slot 2. -/
def applySyncTable2 : Table :=
  applySyncTableLit.apply_sync 1 1 (Metric.new 1 [1, 0] 1) [(3, Metric.new 1 [3, 1] 1)]

theorem sanity_apply_sync_withdraw : applySyncTable2.next 2 [2] = none := by decide

theorem sanity_apply_sync_keep3 : applySyncTable2.next 3 [2] = some (1, 1) := by decide

/-! Lemmas about the `Dest` model. -/

/-- Observer: the path a `Dest` stores under a given connection id. -/
def Dest.path_via (d : Dest) (conn : ConnId) : Option Path :=
  d.find? (fun p => p.conn == conn)

theorem Dest.set_path_ne_nil (d : Dest) (c : ConnId) (n : NodeId) (m : Metric) :
    d.set_path c n m ≠ [] := by
  cases d with
  | nil => simp [Dest.set_path]
  | cons p rest =>
    unfold Dest.set_path
    split <;> simp

theorem Dest.is_empty_set_path (d : Dest) (c : ConnId) (n : NodeId) (m : Metric) :
    (d.set_path c n m).is_empty = false := by
  have h := Dest.set_path_ne_nil d c n m
  unfold Dest.is_empty
  simpa [List.isEmpty_iff] using h

theorem Dest.path_via_set_path (d : Dest) (c : ConnId) (n : NodeId) (m : Metric) :
    (d.set_path c n m).path_via c = some ⟨c, n, m⟩ := by
  induction d with
  | nil => simp [Dest.set_path, Dest.path_via]
  | cons p rest ih =>
    by_cases h : p.conn = c
    · simp [Dest.set_path, Dest.path_via, h]
    · simpa [Dest.set_path, Dest.path_via, h] using ih

theorem Dest.set_path_idem (d : Dest) (c : ConnId) (n : NodeId) (m : Metric) :
    (d.set_path c n m).set_path c n m = d.set_path c n m := by
  induction d with
  | nil => simp [Dest.set_path]
  | cons p rest ih =>
    by_cases h : p.conn = c
    · simp [Dest.set_path, h]
    · simp [Dest.set_path, h, ih]

theorem Dest.path_via_del_path (d : Dest) (c : ConnId) :
    (d.del_path c).path_via c = none := by
  induction d with
  | nil => rfl
  | cons p rest ih =>
    unfold Dest.del_path at ih ⊢
    rw [List.filter_cons]
    by_cases h : p.conn = c
    · simp [h]
      exact ih
    · simp [Dest.path_via, h]

theorem Dest.del_path_idem (d : Dest) (c : ConnId) :
    (d.del_path c).del_path c = d.del_path c := by
  unfold Dest.del_path
  rw [List.filter_filter]
  simp

theorem Dest.del_path_eq_nil_of_all (d : Dest) (c : ConnId) (h : ∀ p ∈ d, p.conn = c) :
    d.del_path c = [] := by
  induction d with
  | nil => rfl
  | cons p rest ih =>
    have hp : p.conn = c := h p (by simp)
    unfold Dest.del_path
    rw [List.filter_cons]
    simpa [hp, Dest.del_path] using ih (fun q hq => h q (by simp [hq]))

theorem pickBest_mem : ∀ (l : List Path) (p : Path), pickBest l = some p → p ∈ l := by
  intro l
  cases l with
  | nil => intro p h; simp [pickBest] at h
  | cons q rest =>
    intro p h
    simp only [pickBest, Option.some_inj] at h
    subst h
    have key : ∀ (xs : List Path) (acc : Path), acc ∈ q :: rest →
        (∀ x ∈ xs, x ∈ q :: rest) →
        xs.foldl (fun best r => if Path.cmp r best = .lt then r else best) acc ∈ q :: rest := by
      intro xs
      induction xs with
      | nil => intro acc hacc _; simpa using hacc
      | cons x xs ih =>
        intro acc hacc hxs
        simp only [List.foldl]
        split
        · exact ih x (hxs x (by simp)) (fun y hy => hxs y (by simp [hy]))
        · exact ih acc hacc (fun y hy => hxs y (by simp [hy]))
    exact key rest q (by simp) (fun y hy => by simp [hy])

theorem Dest.next_eq_none_of_nil (excepts : List NodeId) : Dest.next [] excepts = none := rfl

/-! Pointwise characterisation of `Table.apply_sync`. -/

/-- The effect of one `apply_sync` iteration on the `Dest` of the slot it
visits, as a function of the pre-state slot content. -/
def syncDest (src_conn : ConnId) (src : NodeId) (cached : List (Nat × Metric))
    (self_index L i : Nat) (d : Dest) : Dest :=
  if i = self_index then d
  else
    match lookupAssocMetric cached i with
    | some m => d.set_path src_conn src m
    | none => if !d.is_empty && src.layer L != i then d.del_path src_conn else d

theorem apply_sync_step_node_id (c : ConnId) (s : NodeId) (cached : List (Nat × Metric))
    (t : Table) (i : Nat) : (Table.apply_sync_step c s cached t i).node_id = t.node_id := by
  unfold Table.apply_sync_step
  split
  · rfl
  · split
    · rfl
    · split <;> rfl

theorem apply_sync_step_layer (c : ConnId) (s : NodeId) (cached : List (Nat × Metric))
    (t : Table) (i : Nat) : (Table.apply_sync_step c s cached t i).layer = t.layer := by
  unfold Table.apply_sync_step
  split
  · rfl
  · split
    · rfl
    · split <;> rfl

theorem apply_sync_step_dests (c : ConnId) (s : NodeId) (cached : List (Nat × Metric))
    (t : Table) (i : Nat) :
    (Table.apply_sync_step c s cached t i).dests =
      Function.update t.dests i (syncDest c s cached t.self_index t.layer i (t.dests i)) := by
  unfold Table.apply_sync_step syncDest Table.self_index
  split
  next h => simp [h, Function.update_eq_self]
  next h =>
    split
    · simp
    · split
      next hg => simp
      next hg => simp [Function.update_eq_self]

theorem foldl_apply_sync_node_id (c : ConnId) (s : NodeId) (cached : List (Nat × Metric)) :
    ∀ (l : List Nat) (t : Table),
      (l.foldl (Table.apply_sync_step c s cached) t).node_id = t.node_id := by
  intro l
  induction l with
  | nil => intro t; rfl
  | cons i rest ih =>
    intro t
    simpa [List.foldl, apply_sync_step_node_id] using
      (ih (Table.apply_sync_step c s cached t i)).trans (apply_sync_step_node_id c s cached t i)

theorem foldl_apply_sync_layer (c : ConnId) (s : NodeId) (cached : List (Nat × Metric)) :
    ∀ (l : List Nat) (t : Table),
      (l.foldl (Table.apply_sync_step c s cached) t).layer = t.layer := by
  intro l
  induction l with
  | nil => intro t; rfl
  | cons i rest ih =>
    intro t
    simpa [List.foldl, apply_sync_step_layer] using
      (ih (Table.apply_sync_step c s cached t i)).trans (apply_sync_step_layer c s cached t i)

theorem foldl_apply_sync_dests (c : ConnId) (s : NodeId) (cached : List (Nat × Metric)) :
    ∀ (l : List Nat) (t : Table), l.Nodup → ∀ (j : Nat),
      (l.foldl (Table.apply_sync_step c s cached) t).dests j =
        if j ∈ l then syncDest c s cached t.self_index t.layer j (t.dests j) else t.dests j := by
  intro l
  induction l with
  | nil => intro t _ j; simp [List.foldl]
  | cons i rest ih =>
    intro t hnodup j
    have hni : i ∉ rest := (List.nodup_cons.mp hnodup).1
    have hrest : rest.Nodup := (List.nodup_cons.mp hnodup).2
    have hself : (Table.apply_sync_step c s cached t i).self_index = t.self_index := by
      unfold Table.self_index
      rw [apply_sync_step_node_id, apply_sync_step_layer]
    have hlayer : (Table.apply_sync_step c s cached t i).layer = t.layer :=
      apply_sync_step_layer c s cached t i
    simp only [List.foldl]
    rw [ih (Table.apply_sync_step c s cached t i) hrest j, hself, hlayer,
      apply_sync_step_dests]
    by_cases hji : j = i
    · subst hji
      simp [hni, Function.update_same]
    · by_cases hjr : j ∈ rest <;>
        simp [hjr, hji, Function.update_noteq hji, List.mem_cons]

theorem apply_sync_dests (t : Table) (c : ConnId) (s : NodeId) (sm : Metric) (sync : TableSync)
    (j : Nat) :
    (t.apply_sync c s sm sync).dests j =
      if j < 256 then
        syncDest c s (sync_cached sync sm) t.self_index t.layer j (t.dests j)
      else t.dests j := by
  unfold Table.apply_sync
  rw [foldl_apply_sync_dests c s (sync_cached sync sm) (List.range 256) t (List.nodup_range 256) j]
  simp [List.mem_range]

theorem apply_sync_node_id (t : Table) (c : ConnId) (s : NodeId) (sm : Metric) (sync : TableSync) :
    (t.apply_sync c s sm sync).node_id = t.node_id :=
  foldl_apply_sync_node_id c s (sync_cached sync sm) (List.range 256) t

theorem apply_sync_layer (t : Table) (c : ConnId) (s : NodeId) (sm : Metric) (sync : TableSync) :
    (t.apply_sync c s sm sync).layer = t.layer :=
  foldl_apply_sync_layer c s (sync_cached sync sm) (List.range 256) t

/-- C2: `apply_sync` never modifies the self slot
`dests[self.layer(L)]`, whatever the sync contains. -/
theorem C2_apply_sync_self_slot (t : Table) (src_conn : ConnId) (src : NodeId)
    (src_send_metric : Metric) (sync : TableSync) :
    (t.apply_sync src_conn src src_send_metric sync).dests (t.node_id.layer t.layer) =
      t.dests (t.node_id.layer t.layer) := by
  rw [apply_sync_dests]
  split
  · unfold syncDest Table.self_index
    simp
  · rfl

/-! Idempotence of `apply_sync`. -/

theorem foldl_of_fixed (f : Table → Nat → Table) :
    ∀ (l : List Nat) (t : Table), (∀ i ∈ l, f t i = t) → l.foldl f t = t := by
  intro l
  induction l with
  | nil => intro t _; rfl
  | cons i rest ih =>
    intro t h
    simp only [List.foldl, h i (by simp)]
    exact ih t (fun j hj => h j (by simp [hj]))

theorem syncDest_fixed (c : ConnId) (s : NodeId) (cached : List (Nat × Metric))
    (selfIdx L i : Nat) (d : Dest) :
    syncDest c s cached selfIdx L i (syncDest c s cached selfIdx L i d) =
      syncDest c s cached selfIdx L i d := by
  unfold syncDest
  by_cases hs : i = selfIdx
  · simp [hs]
  · simp only [if_neg hs]
    cases hcache : lookupAssocMetric cached i with
    | some m => exact Dest.set_path_idem d c s m
    | none =>
      by_cases hg : (!d.is_empty && s.layer L != i) = true
      · rw [if_pos hg]
        by_cases hg2 : (!(d.del_path c).is_empty && s.layer L != i) = true
        · rw [if_pos hg2]
          exact Dest.del_path_idem d c
        · rw [if_neg hg2]
      · rw [if_neg hg, if_neg hg]

theorem apply_sync_step_fixed (c : ConnId) (s : NodeId) (cached : List (Nat × Metric))
    (t : Table) (i : Nat)
    (hd : t.dests i = syncDest c s cached t.self_index t.layer i (t.dests i)) :
    Table.apply_sync_step c s cached t i = t := by
  unfold Table.apply_sync_step
  split
  · rfl
  next hne =>
    have hne' : i ≠ t.self_index := fun h => hne (by simpa [Table.self_index] using h)
    unfold syncDest at hd
    rw [if_neg hne'] at hd
    cases hcache : lookupAssocMetric cached i with
    | some m =>
      have hd2 : t.dests i = (t.dests i).set_path c s m := by
        rw [hcache] at hd
        exact hd
      have hempty : (t.dests i).is_empty = false := by
        rw [hd2]
        exact Dest.is_empty_set_path _ c s m
      have hset : (t.dests i).set_path c s m = t.dests i := hd2.symm
      simp only [hempty, Bool.false_eq_true, if_false, hset, Function.update_eq_self]
    | none =>
      have hd2 : t.dests i =
          (if (!(t.dests i).is_empty && s.layer t.layer != i) = true then
            (t.dests i).del_path c
          else t.dests i) := by
        rw [hcache] at hd
        exact hd
      by_cases hguard : (!(t.dests i).is_empty && s.layer t.layer != i) = true
      · rw [if_pos hguard] at hd2
        have hempty : (t.dests i).is_empty = false := by
          have h1 := (Bool.and_eq_true _ _).mp hguard |>.1
          cases he : (t.dests i).is_empty with
          | false => rfl
          | true =>
            rw [he] at h1
            simp at h1
        have hdel : (t.dests i).del_path c = t.dests i := hd2.symm
        have hempty' : ((t.dests i).del_path c).is_empty = false := by
          rw [hdel]
          exact hempty
        simp [hguard, hdel, Function.update_eq_self, hempty]
      · simp only [hguard, Bool.false_eq_true, if_false]

theorem apply_sync_idem_state (t : Table) (c : ConnId) (s : NodeId) (sm : Metric)
    (sync : TableSync) :
    (t.apply_sync c s sm sync).apply_sync c s sm sync = t.apply_sync c s sm sync := by
  unfold Table.apply_sync
  set cached := sync_cached sync sm with hc
  set t1 := (List.range 256).foldl (Table.apply_sync_step c s cached) t with ht1
  apply foldl_of_fixed
  intro i hi
  have hi' : i < 256 := List.mem_range.mp hi
  apply apply_sync_step_fixed
  have hself : t1.self_index = t.self_index := by
    unfold Table.self_index
    rw [ht1, foldl_apply_sync_node_id, foldl_apply_sync_layer]
  have hlayer : t1.layer = t.layer := by rw [ht1, foldl_apply_sync_layer]
  have hdests : t1.dests i = syncDest c s cached t.self_index t.layer i (t.dests i) := by
    rw [ht1, foldl_apply_sync_dests c s cached (List.range 256) t (List.nodup_range 256) i]
    simp [hi']
  rw [hself, hlayer, hdests]
  exact (syncDest_fixed c s cached t.self_index t.layer i (t.dests i)).symm

/-- C6: applying the same sync twice with identical `src_conn`, `src`,
`src_send_metric` and sync contents leaves the table in the same observable
state (slots and every `next` / `next_path` answer) as applying it once. -/
theorem C6_apply_sync_idempotent (t : Table) (src_conn : ConnId) (src : NodeId)
    (src_send_metric : Metric) (sync : TableSync) :
    ((t.apply_sync src_conn src src_send_metric sync).apply_sync src_conn src src_send_metric
        sync).slots = (t.apply_sync src_conn src src_send_metric sync).slots ∧
    ∀ (dest : NodeId) (excepts : List NodeId),
      ((t.apply_sync src_conn src src_send_metric sync).apply_sync src_conn src src_send_metric
          sync).next dest excepts = (t.apply_sync src_conn src src_send_metric sync).next dest
          excepts ∧
      ((t.apply_sync src_conn src src_send_metric sync).apply_sync src_conn src src_send_metric
          sync).next_path dest excepts = (t.apply_sync src_conn src src_send_metric sync).next_path
          dest excepts := by
  rw [apply_sync_idem_state]
  exact ⟨rfl, fun _ _ => ⟨rfl, rfl⟩⟩

/-! The per-slot contract of `apply_sync` (insert on mentioned slots, withdraw
on omitted ones). -/

theorem dest_empty_of_guard_false (d : Dest) (s : NodeId) (L i : Nat)
    (hbne : (s.layer L != i) = true) (hg : ¬(!d.is_empty && s.layer L != i) = true) :
    d = [] := by
  cases he : d.is_empty with
  | true =>
    simpa [Dest.is_empty, List.isEmpty_iff] using he
  | false =>
    exact absurd (by simp [he, hbne]) hg

/-- C5: after `apply_sync(src_conn, src, src_metric, sync)`, every slot `i`
mentioned in the sync whose combined metric is `some m` stores `m` under
`src_conn` with next hop `src`; every other non-self slot except
`src.layer(L)` has its `src_conn` path removed; consequently a slot that only
held paths via `src_conn` and is omitted from the sync becomes unroutable
(`next` returns `none`). -/
theorem C5_apply_sync_slot_contract (t : Table) (src_conn : ConnId) (src : NodeId)
    (src_send_metric : Metric) (sync : TableSync) (i : Nat)
    (hi : i < 256) (hself : i ≠ t.self_index) :
    (∀ m, lookupAssocMetric (sync_cached sync src_send_metric) i = some m →
      ((t.apply_sync src_conn src src_send_metric sync).dests i).path_via src_conn =
        some ⟨src_conn, src, m⟩) ∧
    (lookupAssocMetric (sync_cached sync src_send_metric) i = none →
      src.layer t.layer ≠ i →
      ((t.apply_sync src_conn src src_send_metric sync).dests i).path_via src_conn = none) ∧
    (lookupAssocMetric (sync_cached sync src_send_metric) i = none →
      src.layer t.layer ≠ i →
      (∀ p ∈ t.dests i, p.conn = src_conn) →
      ∀ (dst : NodeId) (excepts : List NodeId), dst.layer t.layer = i →
        (t.apply_sync src_conn src src_send_metric sync).next dst excepts = none) := by
  have hchar := apply_sync_dests t src_conn src src_send_metric sync i
  rw [if_pos hi] at hchar
  refine ⟨?_, ?_, ?_⟩
  · intro m hm
    rw [hchar]
    unfold syncDest
    simp only [if_neg hself, hm]
    exact Dest.path_via_set_path _ src_conn src m
  · intro hnone hlayer
    rw [hchar]
    unfold syncDest
    simp only [if_neg hself, hnone]
    have hbne : (src.layer t.layer != i) = true := by simpa using hlayer
    by_cases hg : (!(t.dests i).is_empty && src.layer t.layer != i) = true
    · rw [if_pos hg]
      exact Dest.path_via_del_path _ src_conn
    · rw [if_neg hg, dest_empty_of_guard_false (t.dests i) src t.layer i hbne hg]
      rfl
  · intro hnone hlayer hall dst excepts hdst
    have hL : (t.apply_sync src_conn src src_send_metric sync).layer = t.layer :=
      apply_sync_layer t src_conn src src_send_metric sync
    unfold Table.next
    rw [hL, hdst, hchar]
    unfold syncDest
    simp only [if_neg hself, hnone]
    have hbne : (src.layer t.layer != i) = true := by simpa using hlayer
    by_cases hg : (!(t.dests i).is_empty && src.layer t.layer != i) = true
    · rw [if_pos hg, Dest.del_path_eq_nil_of_all (t.dests i) src_conn hall]
      rfl
    · rw [if_neg hg, dest_empty_of_guard_false (t.dests i) src t.layer i hbne hg]
      rfl

/-- Witness for C5: the S2 scenario — a second sync from node 1 omitting
slot 2 withdraws the slot, and `next` on node 2 then returns `none`. -/
theorem C5_witness :
    (2 < 256 ∧ 2 ≠ applySyncTableLit.self_index ∧
      lookupAssocMetric
        (sync_cached [(3, Metric.new 1 [3, 1] 1)] (Metric.new 1 [1, 0] 1)) 2 = none ∧
      NodeId.layer 1 applySyncTableLit.layer ≠ 2 ∧
      (∀ p ∈ applySyncTableLit.dests 2, p.conn = 1) ∧ NodeId.layer 2 applySyncTableLit.layer = 2) ∧
    (applySyncTableLit.apply_sync 1 1 (Metric.new 1 [1, 0] 1)
        [(3, Metric.new 1 [3, 1] 1)]).next 2 [] = none := by
  refine ⟨⟨by decide, by decide, by decide, by decide, by decide, by decide⟩, ?_⟩
  exact (C5_apply_sync_slot_contract applySyncTableLit 1 1 (Metric.new 1 [1, 0] 1)
    [(3, Metric.new 1 [3, 1] 1)] 2 (by decide) (by decide)).2.2 (by decide) (by decide)
    (by decide) 2 [] (by decide)

/-! The slot-vector invariant (C3). -/

/-- How many times a slot index should occur in `slots`: once for the self
index (seeded by `Table::new`), plus once when the slot is populated. -/
def slotTarget (t : Table) (x : Nat) : Nat :=
  (if x = t.self_index then 1 else 0) + (if (t.dests x).is_empty then 0 else 1)

/-- The invariant every table operation maintains: `slots` is sorted, slots
with index of 256 or more are empty, and each index occurs in `slots` exactly
`slotTarget` times. -/
def TableInv (t : Table) : Prop :=
  List.Sorted (· ≤ ·) t.slots ∧ (∀ x, 256 ≤ x → t.dests x = []) ∧
    ∀ x, t.slots.count x = slotTarget t x

theorem layer_lt_256 (n : NodeId) (i : Nat) : n.layer i < 256 := by
  unfold NodeId.layer
  exact Nat.mod_lt _ (by norm_num)

theorem count_sort_append (l : List Nat) (i x : Nat) :
    (List.insertionSort (· ≤ ·) (l ++ [i])).count x = l.count x + if i = x then 1 else 0 := by
  rw [(List.perm_insertionSort (· ≤ ·) (l ++ [i])).count_eq, List.count_append,
    List.count_singleton']

theorem sorted_sort_append (l : List Nat) (i : Nat) :
    List.Sorted (· ≤ ·) (List.insertionSort (· ≤ ·) (l ++ [i])) :=
  List.sorted_insertionSort (· ≤ ·) (l ++ [i])

theorem sorted_erase {l : List Nat} (hsort : List.Sorted (· ≤ ·) l) (i : Nat) :
    List.Sorted (· ≤ ·) (l.erase i) :=
  List.Pairwise.sublist (List.erase_sublist i l) hsort

theorem table_inv_new (node_id : NodeId) (layer : Nat) : TableInv (Table.new node_id layer) := by
  refine ⟨by simp [Table.new], fun x _ => rfl, fun x => ?_⟩
  unfold Table.new slotTarget Table.self_index Dest.is_empty
  simp only [List.count_singleton', List.isEmpty_nil, if_true]
  by_cases h : x = node_id.layer layer
  · simp [h]
  · have h2 : ¬node_id.layer layer = x := fun hh => h hh.symm
    simp [h, h2]

theorem add_direct_inv (t : Table) (c : ConnId) (src : NodeId) (m : Metric)
    (hinv : TableInv t) : TableInv (t.add_direct c src m) := by
  obtain ⟨hsort, hhigh, hcount⟩ := hinv
  have hidx : src.layer t.layer < 256 := layer_lt_256 src t.layer
  unfold Table.add_direct
  cases he : (t.dests (src.layer t.layer)).is_empty with
  | true =>
    refine ⟨?_, ?_, ?_⟩
    · simp only [he, if_true]
      exact sorted_sort_append t.slots (src.layer t.layer)
    · intro x hx
      have hxne : x ≠ src.layer t.layer := by omega
      simp only [Function.update_noteq hxne]
      exact hhigh x hx
    · intro x
      simp only [he, if_true, slotTarget, Table.self_index]
      rw [count_sort_append, hcount x]
      by_cases hx : x = src.layer t.layer
      · subst hx
        simp only [Function.update_same, slotTarget, Table.self_index,
          Dest.is_empty_set_path, he]
        simp
      · have hxne' : ¬src.layer t.layer = x := fun hh => hx hh.symm
        simp only [Function.update_noteq hx, slotTarget, Table.self_index, hxne', if_false]
        simp
  | false =>
    refine ⟨?_, ?_, ?_⟩
    · simp only [he, Bool.false_eq_true, if_false]
      exact hsort
    · intro x hx
      have hxne : x ≠ src.layer t.layer := by omega
      simp only [Function.update_noteq hxne]
      exact hhigh x hx
    · intro x
      simp only [he, Bool.false_eq_true, if_false, slotTarget, Table.self_index]
      rw [hcount x]
      by_cases hx : x = src.layer t.layer
      · subst hx
        simp only [Function.update_same, slotTarget, Table.self_index,
          Dest.is_empty_set_path, he]
      · simp only [Function.update_noteq hx]
        rfl

theorem del_direct_step_inv (c : ConnId) (t : Table) (i : Nat) (hinv : TableInv t) :
    TableInv (Table.del_direct_step c t i) := by
  obtain ⟨hsort, hhigh, hcount⟩ := hinv
  unfold Table.del_direct_step
  cases hg : !(t.dests i).is_empty && ((t.dests i).del_path c).is_empty with
  | true =>
    have hne : (t.dests i).is_empty = false := by
      have h1 := ((Bool.and_eq_true _ _).mp hg).1
      cases hee : (t.dests i).is_empty with
      | false => rfl
      | true => rw [hee] at h1; simp at h1
    have hdel : ((t.dests i).del_path c).is_empty = true := ((Bool.and_eq_true _ _).mp hg).2
    refine ⟨?_, ?_, ?_⟩
    · simp only [hg, if_true]
      exact sorted_erase hsort i
    · intro x hx
      dsimp only
      by_cases hxi : x = i
      · subst hxi
        simp only [Function.update_same]
        rw [hhigh x hx]
        rfl
      · simp only [Function.update_noteq hxi]
        exact hhigh x hx
    · intro x
      dsimp only
      simp only [hg, if_true, slotTarget, Table.self_index]
      rw [List.count_erase, hcount x]
      by_cases hx : x = i
      · subst hx
        simp only [Function.update_same, slotTarget, Table.self_index, hne, hdel,
          Bool.false_eq_true, if_false, if_true, beq_self_eq_true]
        simp
      · have hbeq : (i == x) = false := beq_eq_false_iff_ne.mpr (fun hh => hx hh.symm)
        simp only [Function.update_noteq hx, slotTarget, Table.self_index, hbeq,
          Bool.false_eq_true, if_false]
        simp
  | false =>
    refine ⟨?_, ?_, ?_⟩
    · simp only [hg, Bool.false_eq_true, if_false]
      exact hsort
    · intro x hx
      dsimp only
      by_cases hxi : x = i
      · subst hxi
        simp only [Function.update_same]
        rw [hhigh x hx]
        rfl
      · simp only [Function.update_noteq hxi]
        exact hhigh x hx
    · intro x
      dsimp only
      simp only [hg, Bool.false_eq_true, if_false, slotTarget, Table.self_index]
      rw [hcount x]
      by_cases hx : x = i
      · subst hx
        simp only [Function.update_same, slotTarget, Table.self_index]
        cases hee : (t.dests x).is_empty with
        | true =>
          have hnil : t.dests x = [] := by
            simpa [Dest.is_empty, List.isEmpty_iff] using hee
          rw [hnil]
          rfl
        | false =>
          have hdel2 : ((t.dests x).del_path c).is_empty = false := by
            cases hdd : ((t.dests x).del_path c).is_empty with
            | false => rfl
            | true =>
              rw [hee, hdd] at hg
              simp at hg
          rw [hdel2]
      · simp only [Function.update_noteq hx]
        rfl

theorem foldl_table_inv (f : Table → Nat → Table) (P : Table → Prop)
    (l : List Nat) (hf : ∀ t i, i ∈ l → P t → P (f t i)) :
    ∀ t, P t → P (l.foldl f t) := by
  induction l with
  | nil => intro t h; exact h
  | cons i rest ih =>
    intro t h
    exact ih (fun u j hj hu => hf u j (by simp [hj]) hu) (f t i) (hf t i (by simp) h)

theorem del_direct_inv (t : Table) (c : ConnId) (hinv : TableInv t) :
    TableInv (t.del_direct c) :=
  foldl_table_inv (Table.del_direct_step c) TableInv (List.range 256)
    (fun u i _ hu => del_direct_step_inv c u i hu) t hinv

theorem apply_sync_step_inv (c : ConnId) (s : NodeId) (cached : List (Nat × Metric))
    (t : Table) (i : Nat) (hi : i < 256) (hinv : TableInv t) :
    TableInv (Table.apply_sync_step c s cached t i) := by
  obtain ⟨hsort, hhigh, hcount⟩ := hinv
  unfold Table.apply_sync_step
  by_cases hself : i = t.node_id.layer t.layer
  · rw [if_pos hself]
    exact ⟨hsort, hhigh, hcount⟩
  rw [if_neg hself]
  have hselfx : i ≠ t.self_index := fun h => hself (by simpa [Table.self_index] using h)
  cases hcache : lookupAssocMetric cached i with
  | some m =>
    dsimp only
    cases he : (t.dests i).is_empty with
    | true =>
      refine ⟨?_, ?_, ?_⟩
      · simp only [he, if_true]
        exact sorted_sort_append t.slots i
      · intro x hx
        dsimp only
        by_cases hxi : x = i
        · omega
        · simp only [Function.update_noteq hxi]
          exact hhigh x hx
      · intro x
        dsimp only
        simp only [he, if_true, slotTarget, Table.self_index]
        rw [count_sort_append, hcount x]
        by_cases hx : x = i
        · subst hx
          have hxs : ¬x = t.node_id.layer t.layer :=
            fun h => hselfx (by simpa [Table.self_index] using h)
          simp only [Function.update_same, slotTarget, Table.self_index,
            Dest.is_empty_set_path, he, hxs, Bool.false_eq_true, if_false]
          simp
        · have hne2 : ¬i = x := fun hh => hx hh.symm
          simp only [Function.update_noteq hx, slotTarget, Table.self_index, hne2, if_false]
          simp
    | false =>
      refine ⟨?_, ?_, ?_⟩
      · simp only [he, Bool.false_eq_true, if_false]
        exact hsort
      · intro x hx
        dsimp only
        by_cases hxi : x = i
        · omega
        · simp only [Function.update_noteq hxi]
          exact hhigh x hx
      · intro x
        dsimp only
        simp only [he, Bool.false_eq_true, if_false, slotTarget, Table.self_index]
        rw [hcount x]
        by_cases hx : x = i
        · subst hx
          simp only [Function.update_same, slotTarget, Table.self_index,
            Dest.is_empty_set_path, he]
        · simp only [Function.update_noteq hx]
          rfl
  | none =>
    dsimp only
    cases hg : !(t.dests i).is_empty && s.layer t.layer != i with
    | false =>
      simp only [hg, Bool.false_eq_true, if_false]
      exact ⟨hsort, hhigh, hcount⟩
    | true =>
      simp only [hg, if_true]
      have hne : (t.dests i).is_empty = false := by
        have h1 := ((Bool.and_eq_true _ _).mp hg).1
        cases hee : (t.dests i).is_empty with
        | false => rfl
        | true => rw [hee] at h1; simp at h1
      cases hdel : ((t.dests i).del_path c).is_empty with
      | true =>
        refine ⟨?_, ?_, ?_⟩
        · simp only [hdel, if_true]
          exact sorted_erase hsort i
        · intro x hx
          dsimp only
          by_cases hxi : x = i
          · subst hxi
            simp only [Function.update_same]
            rw [hhigh x hx]
            rfl
          · simp only [Function.update_noteq hxi]
            exact hhigh x hx
        · intro x
          dsimp only
          simp only [hdel, if_true, slotTarget, Table.self_index]
          rw [List.count_erase, hcount x]
          by_cases hx : x = i
          · subst hx
            have hxs : ¬x = t.node_id.layer t.layer :=
              fun h => hselfx (by simpa [Table.self_index] using h)
            simp only [Function.update_same, slotTarget, Table.self_index, hne, hdel, hxs,
              Bool.false_eq_true, if_false, if_true, beq_self_eq_true]
          · have hbeq : (i == x) = false := beq_eq_false_iff_ne.mpr (fun hh => hx hh.symm)
            simp only [Function.update_noteq hx, slotTarget, Table.self_index, hbeq,
              Bool.false_eq_true, if_false]
            simp
      | false =>
        refine ⟨?_, ?_, ?_⟩
        · simp only [hdel, Bool.false_eq_true, if_false]
          exact hsort
        · intro x hx
          dsimp only
          by_cases hxi : x = i
          · subst hxi
            simp only [Function.update_same]
            rw [hhigh x hx]
            rfl
          · simp only [Function.update_noteq hxi]
            exact hhigh x hx
        · intro x
          dsimp only
          simp only [hdel, Bool.false_eq_true, if_false, slotTarget, Table.self_index]
          rw [hcount x]
          by_cases hx : x = i
          · subst hx
            simp only [Function.update_same, slotTarget, Table.self_index, hdel, hne]
          · simp only [Function.update_noteq hx]
            rfl

theorem apply_sync_inv (t : Table) (c : ConnId) (s : NodeId) (sm : Metric) (sync : TableSync)
    (hinv : TableInv t) : TableInv (t.apply_sync c s sm sync) :=
  foldl_table_inv (Table.apply_sync_step c s (sync_cached sync sm)) TableInv (List.range 256)
    (fun u i hi hu => apply_sync_step_inv c s (sync_cached sync sm) u i (List.mem_range.mp hi) hu)
    t hinv

/-- The tables reachable by any sequence of `add_direct`, `del_direct` and
`apply_sync` operations from `Table::new`. -/
inductive Table.Reachable : Table → Prop where
  | new (node_id : NodeId) (layer : Nat) : Table.Reachable (Table.new node_id layer)
  | add_direct {t : Table} (src_conn : ConnId) (src : NodeId) (m : Metric) :
      Table.Reachable t → Table.Reachable (t.add_direct src_conn src m)
  | del_direct {t : Table} (src_conn : ConnId) :
      Table.Reachable t → Table.Reachable (t.del_direct src_conn)
  | apply_sync {t : Table} (src_conn : ConnId) (src : NodeId) (sm : Metric) (sync : TableSync) :
      Table.Reachable t → Table.Reachable (t.apply_sync src_conn src sm sync)

theorem reachable_inv {t : Table} (h : t.Reachable) : TableInv t := by
  induction h with
  | new node_id layer => exact table_inv_new node_id layer
  | add_direct src_conn src m _ ih => exact add_direct_inv _ src_conn src m ih
  | del_direct src_conn _ ih => exact del_direct_inv _ src_conn ih
  | apply_sync src_conn src sm sync _ ih => exact apply_sync_inv _ src_conn src sm sync ih

/-- C3 counterexample: immediately after `Table::new(0, 0)`, `slots` is `[0]`
although every `dests` slot is empty, so `slots` differs from the
ascending-sorted list of populated indices (which is empty). -/
theorem C3_counterexample :
    (Table.new 0 0).slots = [0] ∧ ((Table.new 0 0).dests 0).is_empty = true ∧
      (List.range 256).filter (fun i => !((Table.new 0 0).dests i).is_empty) = [] ∧
      (Table.new 0 0).slots ≠
        (List.range 256).filter (fun i => !((Table.new 0 0).dests i).is_empty) := by
  refine ⟨rfl, rfl, by decide, by decide⟩

/-- C3 (amended): after any reachable sequence of operations, `slots` is
sorted ascending and contains exactly the populated indices plus the self
index `self.layer(L)` (which `Table::new` seeds and which stays listed even
while its slot is empty). -/
theorem C3_slots_sorted_membership {t : Table} (h : t.Reachable) :
    List.Sorted (· ≤ ·) t.slots ∧
      ∀ i, i ∈ t.slots ↔ ((t.dests i).is_empty = false ∨ i = t.self_index) := by
  obtain ⟨hsort, _, hcount⟩ := reachable_inv h
  refine ⟨hsort, fun i => ?_⟩
  constructor
  · intro hmem
    have hpos := List.count_pos_iff.mpr hmem
    rw [hcount i] at hpos
    unfold slotTarget at hpos
    by_cases hs : i = t.self_index
    · exact Or.inr hs
    · left
      cases he : (t.dests i).is_empty with
      | false => rfl
      | true => simp [hs, he] at hpos
  · intro hor
    rw [← List.count_pos_iff, hcount i]
    unfold slotTarget
    rcases hor with he | hs
    · simp [he]
    · simp [hs]

/-- Witness for C3: a concrete reachable table on which the amended invariant
is instantiated. -/
theorem C3_witness :
    List.Sorted (· ≤ ·) ((Table.new 0 0).add_direct 1 1 (Metric.new 1 [1, 0] 1)).slots ∧
      (1 ∈ ((Table.new 0 0).add_direct 1 1 (Metric.new 1 [1, 0] 1)).slots ↔
        ((((Table.new 0 0).add_direct 1 1 (Metric.new 1 [1, 0] 1)).dests 1).is_empty = false ∨
          1 = ((Table.new 0 0).add_direct 1 1 (Metric.new 1 [1, 0] 1)).self_index)) := by
  have h := C3_slots_sorted_membership
    (Table.Reachable.add_direct 1 1 (Metric.new 1 [1, 0] 1) (Table.Reachable.new 0 0))
  exact ⟨h.1, h.2 1⟩

/-! The `sync_for` contract (C4). -/

/-- C4 counterexample: a populated non-self slot whose only path traverses the
sync target is omitted from `sync_for` (poisoned reverse also poisons
coverage), so the entries do not cover all populated non-self slots. -/
def poisonTable : Table :=
  ((Table.new 0 0).add_direct 1 1 (Metric.new 1 [1, 0] 1)).apply_sync 1 1 (Metric.new 1 [1, 0] 1)
    [(5, Metric.new 1 [5, 1] 1)]

theorem C4_counterexample :
    (poisonTable.dests 5).is_empty = false ∧ 5 ≠ poisonTable.self_index ∧
      poisonTable.sync_for 1 = some [] := by
  refine ⟨by decide, by decide, by decide⟩

/-- C4 (amended): `sync_for(node)` is `none` exactly when
`eq_util_layer(self, node) > layer + 1`; when it is `some`, its entries are
exactly the populated non-self slots whose `best_for(node)` exists — each
carrying that path metric, which never has `node` among its hops (poisoned
reverse) — while populated slots whose every path traverses `node` are
omitted. -/
theorem C4_sync_for_contract (t : Table) (node : NodeId) :
    (t.sync_for node = none ↔ t.node_id.eq_util_layer node > t.layer + 1) ∧
    ∀ sync, t.sync_for node = some sync →
      (∀ i m, (i, m) ∈ sync →
        (t.dests i).is_empty = false ∧ i ≠ t.self_index ∧ ¬node ∈ m.hops ∧
          ∃ p, (t.dests i).best_for node = some p ∧ p.metric = m) ∧
      (∀ i, i < 256 → i ≠ t.self_index → (t.dests i).is_empty = false →
        ∀ p, (t.dests i).best_for node = some p → (i, p.metric) ∈ sync) := by
  constructor
  · by_cases h : t.node_id.eq_util_layer node > t.layer + 1 <;> simp [Table.sync_for, h]
  · intro sync hsync
    by_cases h : t.node_id.eq_util_layer node > t.layer + 1
    · simp [Table.sync_for, h] at hsync
    · simp only [Table.sync_for, h, if_neg, if_false] at hsync
      have hsync' : sync = (List.range 256).filterMap (fun i =>
          if !(t.dests i).is_empty && i != t.node_id.layer t.layer then
            ((t.dests i).best_for node).map (fun p => (i, p.metric))
          else none) := by
        exact (Option.some_inj.mp hsync).symm
      subst hsync'
      constructor
      · intro i m hmem
        obtain ⟨a, ha, hfa⟩ := List.mem_filterMap.mp hmem
        by_cases hcond : (!(t.dests a).is_empty && a != t.node_id.layer t.layer) = true
        · rw [if_pos hcond] at hfa
          obtain ⟨p, hp, hpm⟩ := Option.map_eq_some'.mp hfa
          have hai : a = i := congrArg Prod.fst hpm
          have hm : p.metric = m := congrArg Prod.snd hpm
          subst hai
          have hcond' := (Bool.and_eq_true _ _).mp hcond
          have hempty : (t.dests a).is_empty = false := by
            cases hee : (t.dests a).is_empty with
            | false => rfl
            | true => rw [hee] at hcond'; simp at hcond'
          have hselfn : a ≠ t.self_index := by
            have := hcond'.2
            simpa [Table.self_index, bne_iff_ne] using this
          have hpmem := pickBest_mem _ p hp
          have hfilter := (List.mem_filter.mp hpmem).2
          have hnode : ¬node ∈ p.metric.hops := by
            simpa using hfilter
          exact ⟨hempty, hselfn, hm ▸ hnode, p, hp, hm⟩
        · rw [if_neg hcond] at hfa
          exact absurd hfa (by simp)
      · intro i hi hselfn hempty p hp
        refine List.mem_filterMap.mpr ⟨i, List.mem_range.mpr hi, ?_⟩
        have hcond : (!(t.dests i).is_empty && i != t.node_id.layer t.layer) = true := by
          have : (i != t.node_id.layer t.layer) = true := by
            simpa [bne_iff_ne, Table.self_index] using hselfn
          simp [hempty, this]
        rw [if_pos hcond, hp]
        rfl

/-- Witness for C4: instantiating the contract on the `create_manual` table
with target node 4. -/
theorem C4_witness :
    (manualTable.sync_for 4 =
        some [(1, Metric.new 1 [1, 0] 1), (3, Metric.new 1 [3, 0] 1)] ∧
      (1, Metric.new 1 [1, 0] 1) ∈
        [(1, Metric.new 1 [1, 0] 1), (3, Metric.new 1 [3, 0] 1)]) ∧
    ((manualTable.dests 1).is_empty = false ∧ 1 ≠ manualTable.self_index ∧
      ¬(4 : NodeId) ∈ (Metric.new 1 [1, 0] 1).hops) := by
  have h := (C4_sync_for_contract manualTable 4).2
    [(1, Metric.new 1 [1, 0] 1), (3, Metric.new 1 [3, 0] 1)] (by decide)
  have h1 := h.1 1 (Metric.new 1 [1, 0] 1) (by decide)
  exact ⟨⟨by decide, by decide⟩, h1.1, h1.2.1, h1.2.2.1⟩

/-! The dht_kv client `LocalStorage` (features/dht_kv/client.rs), restricted
to the `MapGet` request path.  The `LocalMap` sub-module is absent from the
sources; the `maps` field and the `MapCmd` / `MapEvent` arms, which only
interact with `LocalMap` and never touch `map_get_waits` nor emit
`MapGetRes`, are therefore omitted from the model. -/

/-- Route rule enum of the router crate (payload layout per the wire spec). -/
inductive RouteRule where
  | Direct : RouteRule
  | ToNode : NodeId → RouteRule
  | ToKey : NodeId → RouteRule
  | ToService : Nat → RouteRule
  | ToNodes : List NodeId → RouteRule
  | Broadcast : RouteRule
deriving DecidableEq, Repr

/-- Modelled from the spec: the dht_kv get error surfaced on timeout. -/
inductive GetError where
  | Timeout : GetError
deriving DecidableEq, Repr

/-- The `Result` payload of a `MapGetRes` event. -/
inductive GetRes where
  | ok : Nat → GetRes
  | err : GetError → GetRes
deriving DecidableEq, Repr

/-- The dht_kv events surfaced to services (values abstracted to `Nat`). -/
inductive DhtEvent where
  | MapEvent : Nat → DhtEvent
  | MapGetRes : Nat → GetRes → DhtEvent
deriving DecidableEq, Repr

/-- The dht_kv client commands sent towards the key server. -/
inductive ClientCommand where
  | MapCmd : Nat → ClientCommand
  | MapGet : Nat → Nat → ClientCommand
deriving DecidableEq, Repr

/-- The dht_kv server events received by the client (`res` abstracted). -/
inductive ServerEvent where
  | MapEvent : Nat → ServerEvent
  | MapGetRes : Nat → Nat → Nat → ServerEvent
deriving DecidableEq, Repr

inductive LocalStorageOutput where
  | Local : Nat → DhtEvent → LocalStorageOutput
  | Remote : RouteRule → ClientCommand → LocalStorageOutput
deriving DecidableEq, Repr

/-- The dht_kv controls arriving from local services (`MapCmd` omitted: it
only feeds the absent `LocalMap`). -/
inductive DhtControl where
  | MapGet : Nat → DhtControl
deriving DecidableEq, Repr

def MAP_GET_TIMEOUT_MS : Nat := 5000

/-- Mirror of `fn route(key) -> RouteRule` of client.rs. -/
def dhtRoute (key : Nat) : RouteRule := RouteRule.ToKey key

/-- Mirror of `LocalStorage` (without the `maps` field, see above). `map_get_waits`
maps `(key, req_id)` to the stored `(service, req_id)` pair — note the source
stores the request id, not the request time, as the second component. -/
structure LocalStorage where
  map_get_waits : List ((Nat × Nat) × (Nat × Nat))
  queue : List LocalStorageOutput
  req_id_seed : Nat
deriving DecidableEq, Repr

def LocalStorage.new : LocalStorage := ⟨[], [], 0⟩

/-- Model of `HashMap::insert` on the wait map. -/
def setWait (l : List ((Nat × Nat) × (Nat × Nat))) (k : Nat × Nat) (v : Nat × Nat) :
    List ((Nat × Nat) × (Nat × Nat)) :=
  match l with
  | [] => [(k, v)]
  | e :: rest => if e.1 = k then (k, v) :: rest else e :: setWait rest k v

def lookupWait (l : List ((Nat × Nat) × (Nat × Nat))) (k : Nat × Nat) : Option (Nat × Nat) :=
  (l.find? (fun e => e.1 == k)).map (fun e => e.2)

def removeWait (l : List ((Nat × Nat) × (Nat × Nat))) (k : Nat × Nat) :
    List ((Nat × Nat) × (Nat × Nat)) :=
  l.filter (fun e => !(e.1 == k))

/-- Mirror of `LocalStorage::on_tick(now)`, wait-map part: every entry with
`now >= info.1 + MAP_GET_TIMEOUT_MS` is removed — `info.1` being the stored
request id — and no output is queued for it. -/
def LocalStorage.on_tick (s : LocalStorage) (now : Nat) : LocalStorage :=
  { s with map_get_waits :=
      s.map_get_waits.filter (fun e => decide (now < e.2.2 + MAP_GET_TIMEOUT_MS)) }

/-- Mirror of `LocalStorage::on_local` for `Control::MapGet(key)`: allocate a request
id, remember the waiting service and push the remote `MapGet`. -/
def LocalStorage.on_local (s : LocalStorage) (now : Nat) (service : Nat)
    (control : DhtControl) : LocalStorage :=
  match control with
  | DhtControl.MapGet key =>
    { map_get_waits := setWait s.map_get_waits (key, s.req_id_seed) (service, s.req_id_seed),
      queue := s.queue ++
        [LocalStorageOutput.Remote (dhtRoute key) (ClientCommand.MapGet key s.req_id_seed)],
      req_id_seed := s.req_id_seed + 1 }

/-- Mirror of `LocalStorage::on_server`: a `MapGetRes` answers a pending wait with
`Ok(res)` and drops unmatched responses. -/
def LocalStorage.on_server (s : LocalStorage) (now : Nat) (remote : Nat)
    (cmd : ServerEvent) : LocalStorage :=
  match cmd with
  | ServerEvent.MapEvent _ => s
  | ServerEvent.MapGetRes key req_id v =>
    match lookupWait s.map_get_waits (key, req_id) with
    | some sv =>
      { s with
        map_get_waits := removeWait s.map_get_waits (key, req_id),
        queue := s.queue ++
          [LocalStorageOutput.Local sv.1 (DhtEvent.MapGetRes key (GetRes.ok v))] }
    | none => s

/-- C7: a `MapGet` issued at time 0 by service 7 and ticked at
`MAP_GET_TIMEOUT_MS` loses its wait entry but the queue still holds only the
outgoing `MapGet` — no `MapGetRes(Err(Timeout))` is ever surfaced — and a
late server response then produces no output either.  Moreover the timeout
comparison uses the request id, not the request time: a request issued at
`now = 4999` (req_id 0) is already dropped by a tick one millisecond later. -/
theorem C7_timeout_surfaces_nothing :
    (((LocalStorage.new.on_local 0 7 (DhtControl.MapGet 42)).on_tick 5000).map_get_waits = [] ∧
      ((LocalStorage.new.on_local 0 7 (DhtControl.MapGet 42)).on_tick 5000).queue =
        [LocalStorageOutput.Remote (dhtRoute 42) (ClientCommand.MapGet 42 0)] ∧
      (((LocalStorage.new.on_local 0 7 (DhtControl.MapGet 42)).on_tick 5000).on_server 6000 9
          (ServerEvent.MapGetRes 42 0 5)).queue =
        [LocalStorageOutput.Remote (dhtRoute 42) (ClientCommand.MapGet 42 0)]) ∧
    (((LocalStorage.new.on_local 4999 7 (DhtControl.MapGet 42)).on_tick 5000).map_get_waits =
      []) := by
  refine ⟨⟨rfl, rfl, rfl⟩, rfl⟩

/-! The controller-plane output pump (controller_plane.rs, C9).  The
`pop_neighbours` / `pop_features` / `pop_services` dispatchers are mirrored
arm by arm.  The three managers themselves (`NeighboursManager`,
`FeatureManager`, `ServiceManager`) have no sources here, so each manager is
a FIFO of its pending outputs (payloads opaque) and what a manager buffers in
response to an input routed into it is an environment function. -/

inductive CPTask where
  | Neighbours : CPTask
  | Feature : CPTask
  | Service : CPTask
deriving DecidableEq, Repr

/-- Mirror of `neighbours::Output`: `Control(remote, control)`, the three
`ConnectionEvent` shapes of the `Event` arm, and `ShutdownResponse`. -/
inductive NeighboursOutput where
  | Control : Nat → NeighboursOutput
  | EventConnected : Nat → NeighboursOutput
  | EventStats : Nat → NeighboursOutput
  | EventDisconnected : Nat → NeighboursOutput
  | ShutdownResponse : NeighboursOutput
deriving DecidableEq, Repr

/-- Mirror of `FeatureOutput` as dispatched by `pop_features`: the `Event`
arm splits into its `Controller` and `Service` actors. -/
inductive FeatureOutput where
  | ToWorkers : Nat → FeatureOutput
  | EventController : Nat → FeatureOutput
  | EventService : Nat → Nat → FeatureOutput
  | SendDirect : Nat → FeatureOutput
  | SendRoute : Nat → FeatureOutput
  | NeighboursConnectTo : Nat → FeatureOutput
  | NeighboursDisconnectFrom : Nat → FeatureOutput
deriving DecidableEq, Repr

/-- Mirror of `ServiceOutput` as dispatched by `pop_services`. -/
inductive ServiceOutput where
  | FeatureControl : Nat → ServiceOutput
  | EventController : Nat → ServiceOutput
  | BroadcastWorkers : Nat → ServiceOutput
deriving DecidableEq, Repr

/-- Mirror of the controller-plane `Output` arms the three pop functions
produce (payloads opaque; `NetNeigbour` keeps the source spelling). -/
inductive CPOutput where
  | NetNeigbour : Nat → CPOutput
  | Pin : Nat → CPOutput
  | UnPin : Nat → CPOutput
  | ShutdownSuccess : CPOutput
  | Feature : Nat → CPOutput
  | ExtFeaturesEvent : Nat → CPOutput
  | NetDirect : Nat → CPOutput
  | NetRoute : Nat → CPOutput
  | ExtServicesEvent : Nat → CPOutput
  | Service : Nat → CPOutput
deriving DecidableEq, Repr

structure CPState where
  neighbours_queue : List NeighboursOutput
  features_queue : List FeatureOutput
  services_queue : List ServiceOutput
  last_task : Option CPTask
  switcher_current : Nat
deriving DecidableEq, Repr

/-- What the absent manager internals buffer in response to the inputs the
pop functions route into them: `on_shared_input(Connection ...)` on the
features and services managers, `services.on_input(FeatureEvent)`,
`neighbours.on_input(ConnectTo / DisconnectFrom)` and
`features.on_input(FeatureControl)`. -/
structure CPEnv where
  feat_on_shared : Nat → List FeatureOutput
  serv_on_shared : Nat → List ServiceOutput
  serv_on_feature_event : Nat → Nat → List ServiceOutput
  neigh_on_connect : Nat → List NeighboursOutput
  neigh_on_disconnect : Nat → List NeighboursOutput
  feat_on_control : Nat → List FeatureOutput

/-- Mirror of `ControllerPlane::pop_neighbours`: `Control` and
`ShutdownResponse` yield outputs; a `ConnectionEvent` is first fed to the
features and services managers as shared input, after which `Connected` /
`Disconnected` yield `Pin` / `UnPin` while `Stats` yields nothing. -/
def CPState.pop_neighbours (s : CPState) (env : CPEnv) : Option CPOutput × CPState :=
  match s.neighbours_queue with
  | [] => (none, s)
  | out :: rest =>
    match out with
    | NeighboursOutput.Control remote =>
      (some (CPOutput.NetNeigbour remote), { s with neighbours_queue := rest })
    | NeighboursOutput.EventConnected e =>
      (some (CPOutput.Pin e),
        { s with neighbours_queue := rest,
                 features_queue := s.features_queue ++ env.feat_on_shared e,
                 services_queue := s.services_queue ++ env.serv_on_shared e })
    | NeighboursOutput.EventStats e =>
      (none,
        { s with neighbours_queue := rest,
                 features_queue := s.features_queue ++ env.feat_on_shared e,
                 services_queue := s.services_queue ++ env.serv_on_shared e })
    | NeighboursOutput.EventDisconnected e =>
      (some (CPOutput.UnPin e),
        { s with neighbours_queue := rest,
                 features_queue := s.features_queue ++ env.feat_on_shared e,
                 services_queue := s.services_queue ++ env.serv_on_shared e })
    | NeighboursOutput.ShutdownResponse =>
      (some CPOutput.ShutdownSuccess, { s with neighbours_queue := rest })

/-- Mirror of `ControllerPlane::pop_features`: an `Event` for a service
actor, `NeighboursConnectTo` and `NeighboursDisconnectFrom` are routed into
the other managers and yield nothing; the other arms yield outputs. -/
def CPState.pop_features (s : CPState) (env : CPEnv) : Option CPOutput × CPState :=
  match s.features_queue with
  | [] => (none, s)
  | out :: rest =>
    match out with
    | FeatureOutput.ToWorkers x =>
      (some (CPOutput.Feature x), { s with features_queue := rest })
    | FeatureOutput.EventController x =>
      (some (CPOutput.ExtFeaturesEvent x), { s with features_queue := rest })
    | FeatureOutput.EventService svc x =>
      (none, { s with features_queue := rest,
                      services_queue := s.services_queue ++ env.serv_on_feature_event svc x })
    | FeatureOutput.SendDirect x =>
      (some (CPOutput.NetDirect x), { s with features_queue := rest })
    | FeatureOutput.SendRoute x =>
      (some (CPOutput.NetRoute x), { s with features_queue := rest })
    | FeatureOutput.NeighboursConnectTo x =>
      (none, { s with features_queue := rest,
                      neighbours_queue := s.neighbours_queue ++ env.neigh_on_connect x })
    | FeatureOutput.NeighboursDisconnectFrom x =>
      (none, { s with features_queue := rest,
                      neighbours_queue := s.neighbours_queue ++ env.neigh_on_disconnect x })

/-- Mirror of `ControllerPlane::pop_services`: `FeatureControl` is routed
into the features manager and yields nothing; the other arms yield
outputs. -/
def CPState.pop_services (s : CPState) (env : CPEnv) : Option CPOutput × CPState :=
  match s.services_queue with
  | [] => (none, s)
  | out :: rest =>
    match out with
    | ServiceOutput.FeatureControl x =>
      (none, { s with services_queue := rest,
                      features_queue := s.features_queue ++ env.feat_on_control x })
    | ServiceOutput.EventController x =>
      (some (CPOutput.ExtServicesEvent x), { s with services_queue := rest })
    | ServiceOutput.BroadcastWorkers x =>
      (some (CPOutput.Service x), { s with services_queue := rest })

/-- The pop function of one task type, as selected inside `pop_output`. -/
def CPState.pop_task (s : CPState) (env : CPEnv) (t : CPTask) : Option CPOutput × CPState :=
  match t with
  | CPTask.Neighbours => s.pop_neighbours env
  | CPTask.Feature => s.pop_features env
  | CPTask.Service => s.pop_services env

/-- Mirror of `TaskType::try_from` over the switcher index. -/
def cpTaskOf : Nat → Option CPTask
  | 0 => some CPTask.Neighbours
  | 1 => some CPTask.Feature
  | 2 => some CPTask.Service
  | _ => none

/-- Modelled from the spec: the round-robin loop of `TasksSwitcher<3>`
(`san_io_utils` source absent): each index is offered once per cycle; a
produced output is returned without advancing; a miss — including an output
that was consumed internally — advances; a full cycle of misses resets the
switcher and yields `None`. -/
def CPState.rr_loop (env : CPEnv) : Nat → CPState → Option CPOutput × CPState
  | 0, s => (none, { s with switcher_current := 0 })
  | fuel + 1, s =>
    match cpTaskOf s.switcher_current with
    | none => (none, { s with switcher_current := 0 })
    | some t =>
      match s.pop_task env t with
      | (some o, s2) => (some o, s2)
      | (none, s2) => CPState.rr_loop env fuel { s2 with switcher_current := s.switcher_current + 1 }

/-- Mirror of `ControllerPlane::pop_output`: poll the `last_task` sub-engine
first, clearing the tag (and returning `None`) whenever that poll yields
nothing — be the engine drained or its output consumed internally; with no
tag, round robin. -/
def CPState.pop_output (s : CPState) (env : CPEnv) : Option CPOutput × CPState :=
  match s.last_task with
  | some t =>
    match s.pop_task env t with
    | (some o, s2) => (some o, s2)
    | (none, s2) => (none, { s2 with last_task := none })
  | none => CPState.rr_loop env 3 s

/-- Mirror of the `ControllerPlane::on_event` arms that route to the
neighbours manager: the input is delivered and `last_task` tagged;
`produced` abstracts what the manager buffered while handling it. -/
def CPState.on_event_neighbours (s : CPState) (produced : List NeighboursOutput) : CPState :=
  { s with neighbours_queue := s.neighbours_queue ++ produced,
           last_task := some CPTask.Neighbours }

/-- Mirror of the `ControllerPlane::on_event` arms that route to the
features manager. -/
def CPState.on_event_features (s : CPState) (produced : List FeatureOutput) : CPState :=
  { s with features_queue := s.features_queue ++ produced,
           last_task := some CPTask.Feature }

/-- Mirror of the `ControllerPlane::on_event` arms that route to the
services manager. -/
def CPState.on_event_services (s : CPState) (produced : List ServiceOutput) : CPState :=
  { s with services_queue := s.services_queue ++ produced,
           last_task := some CPTask.Service }

/-- Mirror of `ControllerPlane::on_tick`: clears `last_task`; the ticked
managers may buffer outputs. -/
def CPState.on_tick (s : CPState) (np : List NeighboursOutput) (fp : List FeatureOutput)
    (sp : List ServiceOutput) : CPState :=
  { s with neighbours_queue := s.neighbours_queue ++ np,
           features_queue := s.features_queue ++ fp,
           services_queue := s.services_queue ++ sp,
           last_task := none }

def cpFresh : CPState := ⟨[], [], [], none, 0⟩

/-- An environment in which routed inputs buffer nothing. -/
def cpEnv0 : CPEnv :=
  ⟨fun _ => [], fun _ => [], fun _ _ => [], fun _ => [], fun _ => [], fun _ => []⟩

/-- How many outputs a sub-engine has pending. -/
def CPState.pending (s : CPState) (t : CPTask) : Nat :=
  match t with
  | CPTask.Neighbours => s.neighbours_queue.length
  | CPTask.Feature => s.features_queue.length
  | CPTask.Service => s.services_queue.length

/-- C9 counterexample: with a `Stats` event followed by a `Control` packet
pending in the neighbours manager, a round-robin `pop_output` (after a tick
cleared the tag) consumes the `Stats`, misses a full cycle and returns
`None` while the `Control` output is still pending; in the biased phase the
same head makes `pop_output` return `None` and clear the tag before the
engine is drained. -/
theorem C9_counterexample :
    (((cpFresh.on_tick [NeighboursOutput.EventStats 5, NeighboursOutput.Control 6] []
        []).pop_output cpEnv0).1 = none ∧
      (((cpFresh.on_tick [NeighboursOutput.EventStats 5, NeighboursOutput.Control 6] []
          []).pop_output cpEnv0).2).neighbours_queue = [NeighboursOutput.Control 6]) ∧
    (((cpFresh.on_event_neighbours [NeighboursOutput.EventStats 5,
        NeighboursOutput.Control 6]).pop_output cpEnv0).1 = none ∧
      (((cpFresh.on_event_neighbours [NeighboursOutput.EventStats 5,
          NeighboursOutput.Control 6]).pop_output cpEnv0).2).last_task = none ∧
      (((cpFresh.on_event_neighbours [NeighboursOutput.EventStats 5,
          NeighboursOutput.Control 6]).pop_output cpEnv0).2).neighbours_queue =
        [NeighboursOutput.Control 6]) := by
  refine ⟨⟨rfl, rfl⟩, rfl, rfl, rfl⟩

theorem pop_neighbours_last_task (s : CPState) (env : CPEnv) :
    ((s.pop_neighbours env).2).last_task = s.last_task := by
  unfold CPState.pop_neighbours
  cases hq : s.neighbours_queue with
  | nil => rfl
  | cons out rest => cases out <;> rfl

theorem pop_features_last_task (s : CPState) (env : CPEnv) :
    ((s.pop_features env).2).last_task = s.last_task := by
  unfold CPState.pop_features
  cases hq : s.features_queue with
  | nil => rfl
  | cons out rest => cases out <;> rfl

theorem pop_services_last_task (s : CPState) (env : CPEnv) :
    ((s.pop_services env).2).last_task = s.last_task := by
  unfold CPState.pop_services
  cases hq : s.services_queue with
  | nil => rfl
  | cons out rest => cases out <;> rfl

theorem pop_task_last_task (s : CPState) (env : CPEnv) (t : CPTask) :
    ((s.pop_task env t).2).last_task = s.last_task := by
  cases t
  · exact pop_neighbours_last_task s env
  · exact pop_features_last_task s env
  · exact pop_services_last_task s env

theorem pop_task_empty (s : CPState) (env : CPEnv) (t : CPTask) (h : s.pending t = 0) :
    s.pop_task env t = (none, s) := by
  cases t with
  | Neighbours =>
    have hq : s.neighbours_queue = [] := List.length_eq_zero.mp h
    unfold CPState.pop_task CPState.pop_neighbours
    rw [hq]
  | Feature =>
    have hq : s.features_queue = [] := List.length_eq_zero.mp h
    unfold CPState.pop_task CPState.pop_features
    rw [hq]
  | Service =>
    have hq : s.services_queue = [] := List.length_eq_zero.mp h
    unfold CPState.pop_task CPState.pop_services
    rw [hq]

theorem pop_neighbours_own (s : CPState) (env : CPEnv) (out : NeighboursOutput)
    (rest : List NeighboursOutput) (h : s.neighbours_queue = out :: rest) :
    ((s.pop_neighbours env).2).neighbours_queue = rest := by
  unfold CPState.pop_neighbours
  rw [h]
  cases out <;> rfl

theorem pop_features_own (s : CPState) (env : CPEnv) (out : FeatureOutput)
    (rest : List FeatureOutput) (h : s.features_queue = out :: rest) :
    ((s.pop_features env).2).features_queue = rest := by
  unfold CPState.pop_features
  rw [h]
  cases out <;> rfl

theorem pop_services_own (s : CPState) (env : CPEnv) (out : ServiceOutput)
    (rest : List ServiceOutput) (h : s.services_queue = out :: rest) :
    ((s.pop_services env).2).services_queue = rest := by
  unfold CPState.pop_services
  rw [h]
  cases out <;> rfl

theorem pop_task_pending (s : CPState) (env : CPEnv) (t : CPTask) (k : Nat)
    (h : s.pending t = k + 1) : ((s.pop_task env t).2).pending t = k := by
  cases t with
  | Neighbours =>
    cases hq : s.neighbours_queue with
    | nil =>
      rw [CPState.pending, hq] at h
      simp at h
    | cons out rest =>
      have hlen : rest.length = k := by
        rw [CPState.pending, hq] at h
        simpa using h
      show ((s.pop_neighbours env).2).neighbours_queue.length = k
      rw [pop_neighbours_own s env out rest hq, hlen]
  | Feature =>
    cases hq : s.features_queue with
    | nil =>
      rw [CPState.pending, hq] at h
      simp at h
    | cons out rest =>
      have hlen : rest.length = k := by
        rw [CPState.pending, hq] at h
        simpa using h
      show ((s.pop_features env).2).features_queue.length = k
      rw [pop_features_own s env out rest hq, hlen]
  | Service =>
    cases hq : s.services_queue with
    | nil =>
      rw [CPState.pending, hq] at h
      simp at h
    | cons out rest =>
      have hlen : rest.length = k := by
        rw [CPState.pending, hq] at h
        simpa using h
      show ((s.pop_services env).2).services_queue.length = k
      rw [pop_services_own s env out rest hq, hlen]

theorem pending_clear_tag (s : CPState) (t : CPTask) :
    CPState.pending { s with last_task := none } t = s.pending t := by
  cases t <;> rfl

theorem rr_loop_all_empty (env : CPEnv) :
    ∀ (fuel : Nat) (s : CPState), s.neighbours_queue = [] → s.features_queue = [] →
      s.services_queue = [] → (CPState.rr_loop env fuel s).1 = none := by
  intro fuel
  induction fuel with
  | zero => intro s h1 h2 h3; rfl
  | succ fuel ih =>
    intro s h1 h2 h3
    unfold CPState.rr_loop
    cases hc : cpTaskOf s.switcher_current with
    | none => rfl
    | some t =>
      have hempty : s.pop_task env t = (none, s) := by
        apply pop_task_empty
        cases t <;> simp [CPState.pending, h1, h2, h3]
      dsimp only
      rw [hempty]
      exact ih { s with switcher_current := s.switcher_current + 1 } h1 h2 h3

/-- C9 (amended): `pop_output` polls the `last_task` sub-engine first; a
popped output whose dispatch arm yields a controller output is returned with
the tag kept and that engine one output shorter, while a drained engine or
an internally-routed output (`ConnectionEvent::Stats`, a service-bound
feature event, a service `FeatureControl`, a connect / disconnect request)
makes `pop_output` return `None` and clear the tag — so a call may return
`None` while sub-engines, the tagged one included, still hold pending output
(the round-robin phase shows the same on a cycle of internal consumptions) —
and `None` is guaranteed whenever every sub-engine queue is empty. -/
theorem C9_pop_output_contract (env : CPEnv) (s : CPState) :
    (∀ t, s.last_task = some t → s.pending t = 0 →
      s.pop_output env = (none, { s with last_task := none })) ∧
    (∀ t o, s.last_task = some t → (s.pop_output env).1 = some o →
      ((s.pop_output env).2).last_task = some t) ∧
    (∀ t, s.last_task = some t → (s.pop_output env).1 = none →
      ((s.pop_output env).2).last_task = none) ∧
    (∀ t k, s.last_task = some t → s.pending t = k + 1 →
      ((s.pop_output env).2).pending t = k) ∧
    (s.pending CPTask.Neighbours = 0 → s.pending CPTask.Feature = 0 →
      s.pending CPTask.Service = 0 → (s.pop_output env).1 = none) := by
  refine ⟨?_, ?_, ?_, ?_, ?_⟩
  · intro t hlast hpend
    unfold CPState.pop_output
    rw [hlast]
    dsimp only
    rw [pop_task_empty s env t hpend]
  · intro t o hlast hsome
    have hdisp : s.pop_output env =
        (match s.pop_task env t with
          | (some o2, s2) => (some o2, s2)
          | (none, s2) => (none, { s2 with last_task := none })) := by
      unfold CPState.pop_output
      rw [hlast]
    rcases hpop : s.pop_task env t with ⟨fst, snd⟩
    rw [hpop] at hdisp
    cases fst with
    | none =>
      rw [hdisp] at hsome
      exact Option.noConfusion hsome
    | some o2 =>
      rw [hdisp]
      have hlt := pop_task_last_task s env t
      rw [hpop] at hlt
      rw [hlt]
      exact hlast
  · intro t hlast hnone
    have hdisp : s.pop_output env =
        (match s.pop_task env t with
          | (some o2, s2) => (some o2, s2)
          | (none, s2) => (none, { s2 with last_task := none })) := by
      unfold CPState.pop_output
      rw [hlast]
    rcases hpop : s.pop_task env t with ⟨fst, snd⟩
    rw [hpop] at hdisp
    cases fst with
    | none => rw [hdisp]
    | some o2 =>
      rw [hdisp] at hnone
      exact Option.noConfusion hnone
  · intro t k hlast hpend
    have hdisp : s.pop_output env =
        (match s.pop_task env t with
          | (some o2, s2) => (some o2, s2)
          | (none, s2) => (none, { s2 with last_task := none })) := by
      unfold CPState.pop_output
      rw [hlast]
    have hp := pop_task_pending s env t k hpend
    rcases hpop : s.pop_task env t with ⟨fst, snd⟩
    rw [hpop] at hdisp hp
    cases fst with
    | none =>
      rw [hdisp]
      rw [pending_clear_tag]
      exact hp
    | some o2 =>
      rw [hdisp]
      exact hp
  · intro h1 h2 h3
    cases hlast : s.last_task with
    | some t =>
      unfold CPState.pop_output
      rw [hlast]
      dsimp only
      rw [pop_task_empty s env t (by cases t <;> assumption)]
    | none =>
      unfold CPState.pop_output
      rw [hlast]
      exact rr_loop_all_empty env 3 s (List.length_eq_zero.mp h1)
        (List.length_eq_zero.mp h2) (List.length_eq_zero.mp h3)

/-- Witness for C9: the contract applied to a concrete state whose tagged
feature engine is empty while the services engine still holds an output —
`pop_output` returns `None` and clears the tag. -/
theorem C9_witness :
    (CPState.mk [] [] [ServiceOutput.EventController 5] (some CPTask.Feature) 0).pop_output
        cpEnv0 =
      (none, CPState.mk [] [] [ServiceOutput.EventController 5] none 0) :=
  (C9_pop_output_contract cpEnv0
    (CPState.mk [] [] [ServiceOutput.EventController 5] (some CPTask.Feature) 0)).1
    CPTask.Feature rfl rfl

/-! The data-plane packet path (data_plane.rs, C1 / C8 / C10).  Socket
addresses are abstracted to naturals; the shadow router, the neighbours
control codec and the per-feature workers have no sources here and enter the
model as environment parameters; the wire header and the connection crypto
are modelled from the spec. -/

/-- Model of `DataPlaneConnection` (connection.rs absent): node, conn id, address and
the optional cipher key. -/
structure DataPlaneConnection where
  node : NodeId
  conn : ConnId
  addr : Nat
  secure : Option Nat
deriving DecidableEq, Repr

/-- Mirror of `RouteAction` of the router crate. -/
inductive RouteAction where
  | Reject : RouteAction
  | Local : RouteAction
  | Next : Nat → RouteAction
  | Broadcast : Bool → List Nat → RouteAction
deriving DecidableEq, Repr

/-- The data-plane outputs the model observes: queued `NetOutput` packets,
the neighbours-control forward, and raw deliveries into the feature worker
(the boundary of the model, the workers having no sources here). -/
inductive DPOutput where
  | UdpPacket : Nat → List Nat → DPOutput
  | UdpPackets : List Nat → List Nat → DPOutput
  | NetNeighbour : Nat → List Nat → DPOutput
  | FeatureRaw : Nat → ConnId → Nat → List Nat → DPOutput
deriving DecidableEq, Repr

/-- The `DataPlane` state the packet path touches: the two connection maps
(`HashMap` as a function map) and the output queue. -/
structure DPState where
  node_id : NodeId
  conns : Nat → Option DataPlaneConnection
  conns_reverse : ConnId → Option Nat
  queue : List DPOutput

def DPState.push (s : DPState) (o : DPOutput) : DPState := { s with queue := s.queue ++ [o] }

/-- The external collaborators of `incoming_route`, as opaque total
functions: `NeighboursControl::try_from`, `ShadowRouter::derive_action`
(router sources absent) and `Features::try_from`. -/
structure DPEnv where
  nparse : List Nat → Option (List Nat)
  route : RouteRule → Option NodeId → Option NodeId → RouteAction
  known_feature : Nat → Bool

/-- Mirror of `TransportMsgHeader::is_secure(byte0)`: bit 5 of the first byte, per the
wire layout of the spec. -/
def is_secure (b : Nat) : Bool := b / 32 % 2 == 1

/-- Modelled from the spec: the parsed `TransportMsgHeader`. -/
structure TransportMsgHeader where
  secure : Bool
  feature : Nat
  ttl : Nat
  route : RouteRule
  from_node : Option NodeId
deriving DecidableEq, Repr

def read_u32 : List Nat → Option (NodeId × List Nat)
  | a :: b :: c :: d :: rest => some (((a * 256 + b) * 256 + c) * 256 + d, rest)
  | _ => none

def read_u32_list : Nat → List Nat → Option (List NodeId × List Nat)
  | 0, l => some ([], l)
  | n + 1, l =>
    match read_u32 l with
    | none => none
    | some (x, rest) =>
      match read_u32_list n rest with
      | none => none
      | some (xs, rest2) => some (x :: xs, rest2)

def parse_route_payload (rt : Nat) (l : List Nat) : Option RouteRule :=
  match rt with
  | 0 => some RouteRule.Direct
  | 1 => (read_u32 l).map (fun p => RouteRule.ToNode p.1)
  | 2 => (read_u32 l).map (fun p => RouteRule.ToKey p.1)
  | 3 =>
    match l with
    | c :: _ => some (RouteRule.ToService c)
    | [] => none
  | 4 =>
    match l with
    | c :: rest => (read_u32_list c rest).map (fun p => RouteRule.ToNodes p.1)
    | [] => none
  | 5 => some RouteRule.Broadcast
  | _ => none

/-- Modelled from the spec: `TransportMsgHeader::try_from` per the wire
layout of section 6 (byte 0 packs version, secure bit, route type and the
from-node flag; byte 1 feature; byte 2 ttl; byte 3 flags; then the optional
from-node and the route payload). -/
def parse_msg_header (buf : List Nat) : Option TransportMsgHeader :=
  match buf with
  | b0 :: feature :: ttl :: _flags :: rest =>
    if b0 / 2 % 2 == 1 then
      match read_u32 rest with
      | none => none
      | some (fn, rest2) =>
        (parse_route_payload (b0 / 4 % 8) rest2).map
          (fun r => ⟨is_secure b0, feature, ttl, r, some fn⟩)
    else
      (parse_route_payload (b0 / 4 % 8) rest).map
        (fun r => ⟨is_secure b0, feature, ttl, r, none⟩)
  | _ => none

/-- Modelled from the spec: `TransportMsgHeader::decrease_ttl` decrements the
TTL byte in place and reports `false` (drop) when the TTL is already zero or
the buffer has no TTL byte. -/
def decrease_ttl (buf : List Nat) : Bool × List Nat :=
  match buf.get? 2 with
  | none => (false, buf)
  | some t => if t = 0 then (false, buf) else (true, buf.set 2 (t - 1))

/-- Modelled from the spec: decrypt strips the 12-byte nonce plus 16-byte
tag the AEAD appends; it fails without a key or on a short buffer. -/
def decrypt_if_need (c : DataPlaneConnection) (buf : List Nat) : Option (List Nat) :=
  match c.secure with
  | none => none
  | some _ => if 28 < buf.length then some (buf.take (buf.length - 28)) else none

/-- Modelled from the spec: encrypt appends the 28 AEAD bytes when the header
carries the secure bit; plain buffers pass through unchanged. -/
def encrypt_if_need (c : DataPlaneConnection) (buf : List Nat) : Option (List Nat) :=
  if is_secure (buf.headD 0) then
    match c.secure with
    | none => none
    | some _ => some (buf ++ List.replicate 28 0)
  else some buf

/-- Mirror of `DataPlane::build_send_to_from_mut`. -/
def build_send_to_from_mut (conn : DataPlaneConnection) (remote : Nat) (buf : List Nat) :
    Option DPOutput :=
  (encrypt_if_need conn buf).map (fun b => DPOutput.UdpPacket remote b)

/-- Mirror of `DataPlane::build_send_to_multi_from_mut`: the secure path pops the last
remote, re-encrypts a copy per other remote (pushing straight to the queue)
and returns the last packet; the plain path returns one `UdpPackets`.  The
outer `none` marks the index panic on `buf[0]`. -/
def build_send_to_multi_from_mut (s : DPState) (remotes : List Nat) (buf : List Nat) :
    Option (DPState × Option DPOutput) :=
  match buf.get? 0 with
  | none => none
  | some b0 =>
    if is_secure b0 then
      match remotes.getLast? with
      | none => some (s, none)
      | some first =>
        let s1 := remotes.dropLast.foldl (fun acc remote =>
          match acc.conns remote with
          | none => acc
          | some conn =>
            match encrypt_if_need conn buf with
            | none => acc
            | some b => acc.push (DPOutput.UdpPacket remote b)) s
        match s1.conns first with
        | none => some (s1, none)
        | some conn =>
          match encrypt_if_need conn buf with
          | none => some (s1, none)
          | some b => some (s1, some (DPOutput.UdpPacket first b))
    else some (s, some (DPOutput.UdpPackets remotes buf))

/-- Mirror of `DataPlane::incoming_route`.  The result is `none` exactly on the paths
where the Rust would panic (out-of-bounds indexing); every graceful drop
returns the state unchanged. -/
def incoming_route (env : DPEnv) (s : DPState) (remote : Nat) (buf : List Nat) :
    Option DPState :=
  match s.conns remote with
  | none => some s
  | some conn =>
    match buf.get? 0 with
    | none => none
    | some b0 =>
      match (if is_secure b0 then decrypt_if_need conn buf else some buf) with
      | none => some s
      | some buf1 =>
        match parse_msg_header buf1 with
        | none => some s
        | some header =>
          match env.route header.route header.from_node (some conn.node) with
          | RouteAction.Reject => some s
          | RouteAction.Local =>
            if env.known_feature header.feature then
              some (s.push (DPOutput.FeatureRaw header.feature conn.conn remote buf1))
            else some s
          | RouteAction.Next remote2 =>
            match s.conns remote2 with
            | none => some s
            | some target =>
              match build_send_to_from_mut target remote2 (decrease_ttl buf1).2 with
              | none => some s
              | some out => some (s.push out)
          | RouteAction.Broadcast loc remotes =>
            if (decrease_ttl buf1).1 = false then some s
            else
              let s1 :=
                if loc && env.known_feature header.feature then
                  s.push (DPOutput.FeatureRaw header.feature conn.conn remote
                    (decrease_ttl buf1).2)
                else s
              if remotes.isEmpty then some s1
              else
                match build_send_to_multi_from_mut s1 remotes (decrease_ttl buf1).2 with
                | none => none
                | some (s2, none) => some s2
                | some (s2, some out) => some (s2.push out)

/-- Mirror of `DataPlane::on_event` for `Input::Net(NetInput::UdpPacket(remote, buf))`. -/
def on_event_udp (env : DPEnv) (s : DPState) (remote : Nat) (buf : List Nat) :
    Option DPState :=
  if buf.isEmpty then some s
  else
    match env.nparse buf with
    | some control => some (s.push (DPOutput.NetNeighbour remote control))
    | none => incoming_route env s remote buf

/-- Mirror of `DataPlane::on_event` for `LogicEvent::Pin(conn, node, addr, secure)`. -/
def on_event_pin (s : DPState) (conn : ConnId) (node : NodeId) (addr : Nat)
    (secure : Option Nat) : DPState :=
  { s with
    conns := Function.update s.conns addr (some ⟨node, conn, addr, secure⟩),
    conns_reverse := Function.update s.conns_reverse conn (some addr) }

/-- Mirror of `DataPlane::on_event` for `LogicEvent::UnPin(conn)`. -/
def on_event_unpin (s : DPState) (conn : ConnId) : DPState :=
  match s.conns_reverse conn with
  | none => s
  | some addr =>
    { s with
      conns_reverse := Function.update s.conns_reverse conn none,
      conns := Function.update s.conns addr none }

/-! C1: the TTL handling of the `Next` branch. -/

/-- Environment whose router always answers `Next(200)`, with no neighbours
control parse and every feature known. -/
def c1Env : DPEnv :=
  ⟨fun _ => none, fun _ _ _ => RouteAction.Next 200, fun _ => true⟩

/-- Two pinned insecure connections: address 100 (the sender) and address 200
(the forward target). -/
def c1State : DPState where
  node_id := 0
  conns := fun a =>
    if a = 100 then some ⟨7, 1, 100, none⟩
    else if a = 200 then some ⟨8, 2, 200, none⟩
    else none
  conns_reverse := fun c => if c = 1 then some 100 else if c = 2 then some 200 else none
  queue := []

/-- An insecure `ToNode(9)` packet with TTL zero (byte 2). -/
def c1BufTtl0 : List Nat := [4, 0, 0, 0, 0, 0, 0, 9]

/-- The same packet with TTL five. -/
def c1BufTtl5 : List Nat := [4, 0, 5, 0, 0, 0, 0, 9]

/-- C1: on a `Next` route, `decrease_ttl` returning `false` does NOT drop the
packet — the code logs and forwards anyway, queueing a `NetOutput` with the
TTL still zero (the missing `return` of data_plane.rs line 236); with a
positive TTL the forwarded packet carries exactly TTL minus one. -/
theorem C1_next_ttl_zero_still_forwards :
    ((decrease_ttl c1BufTtl0).1 = false ∧
      (on_event_udp c1Env c1State 100 c1BufTtl0).map DPState.queue =
        some [DPOutput.UdpPacket 200 c1BufTtl0]) ∧
    ((decrease_ttl c1BufTtl5).1 = true ∧
      (on_event_udp c1Env c1State 100 c1BufTtl5).map DPState.queue =
        some [DPOutput.UdpPacket 200 [4, 0, 4, 0, 0, 0, 0, 9]]) := by
  refine ⟨⟨rfl, rfl⟩, rfl, rfl⟩

/-! C8: the UDP ingress path never panics. -/

theorem parse_msg_header_ne_nil {buf : List Nat} {h : TransportMsgHeader}
    (hp : parse_msg_header buf = some h) : buf ≠ [] := by
  intro hnil
  subst hnil
  simp [parse_msg_header] at hp

theorem decrease_ttl_ne_nil {buf : List Nat} (h : buf ≠ []) : (decrease_ttl buf).2 ≠ [] := by
  unfold decrease_ttl
  cases hg : buf.get? 2 with
  | none => exact h
  | some t =>
    by_cases ht : t = 0
    · simp only [ht, if_pos rfl]
      exact h
    · simp only [ht, if_false]
      intro hset
      exact h (by simpa using congrArg List.length hset)

theorem build_send_to_multi_isSome (s : DPState) (remotes : List Nat) {buf : List Nat}
    (h : buf ≠ []) : (build_send_to_multi_from_mut s remotes buf).isSome = true := by
  unfold build_send_to_multi_from_mut
  cases buf with
  | nil => exact absurd rfl h
  | cons b0 rest =>
    simp only [List.get?]
    by_cases hs : is_secure b0 = true
    · rw [if_pos hs]
      cases hlast : remotes.getLast? with
      | none => rfl
      | some first =>
        dsimp only
        split
        · rfl
        · split <;> rfl
    · rw [if_neg hs]
      rfl

/-- C8: for every environment, state, remote address and byte buffer —
including the empty buffer and unknown remotes — the UDP branch of
`DataPlane::on_event` (and the `incoming_route` it invokes) reaches no panic
point. -/
theorem C8_on_event_udp_total (env : DPEnv) (s : DPState) (remote : Nat) (buf : List Nat) :
    (on_event_udp env s remote buf).isSome = true := by
  unfold on_event_udp
  by_cases hempty : buf.isEmpty = true
  · rw [if_pos hempty]
    rfl
  rw [if_neg hempty]
  cases env.nparse buf with
  | some control => rfl
  | none =>
    dsimp only
    unfold incoming_route
    cases s.conns remote with
    | none => rfl
    | some conn =>
      dsimp only
      have hne : buf ≠ [] := by
        intro hnil
        subst hnil
        simp at hempty
      cases buf with
      | nil => exact absurd rfl hne
      | cons b0 rest =>
        simp only [List.get?]
        cases hdec : (if is_secure b0 then decrypt_if_need conn (b0 :: rest)
            else some (b0 :: rest)) with
        | none => rfl
        | some buf1 =>
          dsimp only
          cases hparse : parse_msg_header buf1 with
          | none => rfl
          | some header =>
            dsimp only
            cases env.route header.route header.from_node (some conn.node) with
            | Reject => rfl
            | Local =>
              dsimp only
              split <;> rfl
            | Next remote2 =>
              dsimp only
              cases s.conns remote2 with
              | none => rfl
              | some target =>
                dsimp only
                cases build_send_to_from_mut target remote2 (decrease_ttl buf1).2 with
                | none => rfl
                | some out => rfl
            | Broadcast loc remotes =>
              dsimp only
              by_cases httl : (decrease_ttl buf1).1 = false
              · rw [if_pos httl]
                rfl
              rw [if_neg httl]
              by_cases hrem : remotes.isEmpty = true
              · rw [if_pos hrem]
                rfl
              rw [if_neg hrem]
              have hb1 : buf1 ≠ [] := parse_msg_header_ne_nil hparse
              have hb2 : (decrease_ttl buf1).2 ≠ [] := decrease_ttl_ne_nil hb1
              have hsome := build_send_to_multi_isSome
                (if loc && env.known_feature header.feature then
                  DPState.push s (DPOutput.FeatureRaw header.feature conn.conn remote
                    (decrease_ttl buf1).2)
                else s) remotes hb2
              cases hbuild : build_send_to_multi_from_mut
                  (if loc && env.known_feature header.feature then
                    DPState.push s (DPOutput.FeatureRaw header.feature conn.conn remote
                      (decrease_ttl buf1).2)
                  else s) remotes (decrease_ttl buf1).2 with
              | none =>
                rw [hbuild] at hsome
                simp at hsome
              | some pair =>
                cases pair with
                | mk s2 out =>
                  cases out with
                  | none => rfl
                  | some o => rfl

/-! C10: the Pin / UnPin connection maps. -/

/-- The fresh data plane (`DataPlane::new`): both connection maps empty. -/
def dpInit (node_id : NodeId) : DPState := ⟨node_id, fun _ => none, fun _ => none, []⟩

/-- The two connection maps are exact inverses. -/
def DPInverse (s : DPState) : Prop :=
  ∀ (conn : ConnId) (addr : Nat),
    s.conns_reverse conn = some addr ↔ ∃ r, s.conns addr = some r ∧ r.conn = conn

/-- C10 counterexample: pinning address 100 first under conn 1 and then under
conn 2 leaves `conns_reverse 1 = some 100` while `conns 100` holds conn 2, so
the two maps are not inverses. -/
theorem C10_counterexample :
    (on_event_pin (on_event_pin (dpInit 0) 1 10 100 none) 2 10 100 none).conns_reverse 1 =
        some 100 ∧
      (on_event_pin (on_event_pin (dpInit 0) 1 10 100 none) 2 10 100 none).conns 100 =
        some ⟨10, 2, 100, none⟩ ∧
      ¬DPInverse (on_event_pin (on_event_pin (dpInit 0) 1 10 100 none) 2 10 100 none) := by
  refine ⟨by decide, by decide, ?_⟩
  intro hinv
  obtain ⟨r, hr, hc⟩ := (hinv 1 100).mp (by decide)
  have hr2 : r = ⟨10, 2, 100, none⟩ := by
    have : some r = some (⟨10, 2, 100, none⟩ : DataPlaneConnection) := by
      rw [← hr]
      decide
    exact Option.some_inj.mp this
  rw [hr2] at hc
  simp at hc

/-- A `Pin` is admissible when its conn and addr are both fresh, or when it
re-pins exactly the pair already present. -/
def PinOk (s : DPState) (conn : ConnId) (addr : Nat) : Prop :=
  (s.conns_reverse conn = none ∧ s.conns addr = none) ∨
    (s.conns_reverse conn = some addr ∧ ∃ r, s.conns addr = some r ∧ r.conn = conn)

/-- States reachable from a fresh data plane by admissible `Pin` events and
arbitrary `UnPin` events. -/
inductive DPState.PinReachable : DPState → Prop where
  | init (node_id : NodeId) : DPState.PinReachable (dpInit node_id)
  | pin {s : DPState} (conn : ConnId) (node : NodeId) (addr : Nat) (secure : Option Nat) :
      DPState.PinReachable s → PinOk s conn addr →
      DPState.PinReachable (on_event_pin s conn node addr secure)
  | unpin {s : DPState} (conn : ConnId) :
      DPState.PinReachable s → DPState.PinReachable (on_event_unpin s conn)

theorem unpin_preserves_inverse (s : DPState) (conn : ConnId) (ih : DPInverse s) :
    DPInverse (on_event_unpin s conn) := by
  intro c a
  unfold on_event_unpin
  cases hrev : s.conns_reverse conn with
  | none => exact ih c a
  | some addr =>
    dsimp only
    by_cases hc : c = conn
    · subst hc
      rw [Function.update_same]
      constructor
      · intro hfalse
        exact Option.noConfusion hfalse
      · intro ⟨r, hr, hrc⟩
        exfalso
        by_cases ha : a = addr
        · subst ha
          rw [Function.update_same] at hr
          exact Option.noConfusion hr
        · rw [Function.update_noteq ha] at hr
          have := (ih c a).mpr ⟨r, hr, hrc⟩
          rw [hrev] at this
          exact ha (Option.some_inj.mp this).symm
    · rw [Function.update_noteq hc]
      by_cases ha : a = addr
      · subst ha
        rw [Function.update_same]
        constructor
        · intro hl
          exfalso
          obtain ⟨r, hr, hrc⟩ := (ih c a).mp hl
          obtain ⟨r2, hr2, hrc2⟩ := (ih conn a).mp hrev
          have hrr : r = r2 := by
            rw [hr] at hr2
            exact Option.some_inj.mp hr2
          have : c = conn := by rw [← hrc, hrr, hrc2]
          exact hc this
        · intro ⟨r, hr, hrc⟩
          exact Option.noConfusion hr
      · rw [Function.update_noteq ha]
        exact ih c a

/-- C10 (amended): starting from a fresh data plane, after any sequence of
`Pin` and `UnPin` events in which every `Pin` uses a fresh conn and addr (or
re-pins the identical pair), the maps `conns` and `conns_reverse` are exact
inverses.  Re-pinning a live address under a different conn (the
counterexample) is excluded. -/
theorem C10_pin_unpin_inverse {s : DPState} (h : s.PinReachable) : DPInverse s := by
  induction h with
  | init node_id =>
    intro c a
    simp [dpInit]
  | pin conn node addr secure _ hok ih =>
    intro c a
    unfold on_event_pin
    dsimp only
    by_cases hc : c = conn
    · subst hc
      rw [Function.update_same]
      by_cases ha : a = addr
      · subst ha
        rw [Function.update_same]
        constructor
        · intro _
          exact ⟨⟨node, c, a, secure⟩, rfl, rfl⟩
        · intro _
          rfl
      · rw [Function.update_noteq ha]
        constructor
        · intro hsome
          exact absurd (Option.some_inj.mp hsome) (fun hh => ha hh.symm)
        · intro ⟨r, hr, hrc⟩
          exfalso
          have hrev := (ih c a).mpr ⟨r, hr, hrc⟩
          rcases hok with ⟨hnone, _⟩ | ⟨hsomea, _⟩
          · rw [hnone] at hrev
            exact Option.noConfusion hrev
          · rw [hsomea] at hrev
            exact ha (Option.some_inj.mp hrev.symm)
    · rw [Function.update_noteq hc]
      by_cases ha : a = addr
      · subst ha
        rw [Function.update_same]
        constructor
        · intro hrev
          exfalso
          obtain ⟨r, hr, hrc⟩ := (ih c a).mp hrev
          rcases hok with ⟨_, hnone⟩ | ⟨_, r', hr', hrc'⟩
          · rw [hnone] at hr
            exact Option.noConfusion hr
          · rw [hr'] at hr
            have hrr : r' = r := Option.some_inj.mp hr
            apply hc
            rw [← hrc, ← hrr]
            exact hrc'
        · intro ⟨r, hr, hrc⟩
          exfalso
          have : r = ⟨node, conn, a, secure⟩ := (Option.some_inj.mp hr).symm
          rw [this] at hrc
          exact hc hrc.symm
      · rw [Function.update_noteq ha]
        exact ih c a
  | unpin conn _ ih => exact unpin_preserves_inverse _ conn ih

/-- Witness for C10: the inverse property instantiated after one admissible
`Pin` on the fresh data plane. -/
theorem C10_witness :
    (on_event_pin (dpInit 0) 1 10 100 (some 5)).conns_reverse 1 = some 100 ↔
      ∃ r, (on_event_pin (dpInit 0) 1 10 100 (some 5)).conns 100 = some r ∧ r.conn = 1 :=
  C10_pin_unpin_inverse
    (DPState.PinReachable.pin 1 10 100 (some 5) (DPState.PinReachable.init 0)
      (Or.inl ⟨rfl, rfl⟩)) 1 100

end Sdn
